import Mathlib

/-!
Verification development for the `air-monitor` package (MazamaScience).

The package manages a pair of Arquero tables: `meta` (one row per device
deployment) and `data` (one row per hourly UTC timestamp, one column per
`deviceDeploymentID`, plus a leading `datetime` column).  This file gives a
shallow embedding of the cell values, the two tables, and the operators of
`src/utils/parse.js`, `src/utils/helpers.js`, `src/utils/transform.js` and
`src/utils/geojson.js`, and proves properties of them.

Cells are JavaScript values; finite numbers are modelled as rationals and
Luxon `DateTime` objects by their epoch milliseconds, zone name and validity
flag.  Tables are ordered named columns, as in Arquero's columnar layout.
-/

namespace AirMonitor

/-- Model of a Luxon `DateTime`: the instant in epoch milliseconds, the name
of the attached zone, and the validity flag. -/
structure LDT where
  epochMs : Int
  zoneName : String
  valid : Bool
deriving DecidableEq, Repr

/-- A JavaScript value as stored in an Arquero table cell: `null`,
`undefined`, a finite number, `NaN`, a signed infinity, a string, or a Luxon
`DateTime` object. -/
inductive JVal where
  | jnull
  | jundef
  | jnum (q : Rat)
  | jnan
  | jinf (pos : Bool)
  | jstr (s : String)
  | jdate (d : LDT)
deriving DecidableEq, Repr

open JVal

/-- JS `typeof`. -/
def typeOf : JVal → String
  | jnull => "object"
  | jundef => "undefined"
  | jnum _ => "number"
  | jnan => "number"
  | jinf _ => "number"
  | jstr _ => "string"
  | jdate _ => "object"

/-- Arquero `op.is_finite`, i.e. JS `Number.isFinite`: true exactly on finite
numbers. -/
def isFiniteNum : JVal → Bool
  | jnum _ => true
  | _ => false

/-- JS loose equality with `null` (`v == null`): true exactly for `null` and
`undefined`. -/
def isNullish : JVal → Bool
  | jnull => true
  | jundef => true
  | _ => false

/-- Consume a maximal run of decimal digits. -/
def takeDigits : List Char → List Char × List Char
  | [] => ([], [])
  | c :: rest =>
    if c.isDigit then
      let (ds, tail) := takeDigits rest
      (c :: ds, tail)
    else ([], c :: rest)

/-- Value of a digit run. -/
def digitsToNat (ds : List Char) : Nat :=
  ds.foldl (fun acc c => 10 * acc + (c.toNat - 48)) 0

/-- Model of JS `parseFloat` on a string: after optional leading blanks and an
optional sign, the longest prefix in plain decimal notation (digits with an
optional fractional part) is parsed; `NaN` when there is none.  Exponent
notation and the literal `Infinity` are not modelled; no string handled in
this development uses them. -/
def parseFloatStr (s : String) : JVal :=
  let cs := s.data.dropWhile (fun c => c == ' ' || c == '\t' || c == '\n' || c == '\r')
  let (neg, cs1) :=
    match cs with
    | '-' :: rest => (true, rest)
    | '+' :: rest => (false, rest)
    | _ => (false, cs)
  let (intDs, cs2) := takeDigits cs1
  let fracDs :=
    match cs2 with
    | '.' :: rest => (takeDigits rest).1
    | _ => []
  if intDs.isEmpty && fracDs.isEmpty then jnan
  else
    let mag : Rat :=
      mkRat (digitsToNat intDs * 10 ^ fracDs.length + digitsToNat fracDs) (10 ^ fracDs.length)
    jnum (if neg then -mag else mag)

/-- Arquero `op.parse_float`, i.e. JS `Number.parseFloat`, which converts its
argument to a string first: finite numbers and infinities round-trip through
their decimal rendering; `null`, `undefined` and `NaN` stringify to
non-numeric text and give `NaN`.  A Luxon `DateTime` stringifies to an ISO
string; measurement columns never hold date objects, and the model sends them
to `NaN` (the only fact used downstream is that the result is a number). -/
def parse_float : JVal → JVal
  | jnum q => jnum q
  | jinf p => jinf p
  | jstr s => parseFloatStr s
  | _ => jnan

/-- JS `v < 0` as evaluated by the Arquero expression compiler: `null`
converts to `0` (so `null < 0` is false), `undefined` and `NaN` compare
false, and `-Infinity` alone among the non-finite numbers is below zero.
A string operand would go through `ToNumber`; in `parseData` no string ever
reaches this comparison (the first pass replaces every string cell), and the
model compares such a value as false. -/
def jsLtZero : JVal → Bool
  | jnum q => decide (q < 0)
  | jinf p => !p
  | _ => false

/-- JS `v <= 0` on the same values: `null <= 0` is TRUE (null converts to 0),
which is why the source clamps with `< 0` and not `<= 0`. -/
def jsLeZero : JVal → Bool
  | jnull => true
  | jnum q => decide (q ≤ 0)
  | jinf p => !p
  | _ => false

/-- JS loose `v != null`: false exactly for `null` and `undefined`. -/
def jsNeNull (v : JVal) : Bool := !(isNullish v)

/-! ## Tables

An Arquero table is a sequence of named columns; a row is the positional zip
of the columns. -/

/-- An Arquero table: ordered named columns of JS values. -/
structure Table where
  cols : List (String × List JVal)
deriving DecidableEq, Repr

namespace Table

/-- `table.columnNames()`. -/
def names (t : Table) : List String := t.cols.map Prod.fst

/-- `table.array(name)`: the values of the first column with this name.
Arquero throws on an unknown name; every use in this development is guarded
by a membership check, and the unguarded case defaults to the empty list. -/
def array (t : Table) (name : String) : List JVal :=
  match t.cols.find? (fun c => c.1 == name) with
  | some c => c.2
  | none => []

/-- `table.numRows()`: the length of the first column (0 for no columns). -/
def numRows (t : Table) : Nat :=
  match t.cols with
  | [] => 0
  | c :: _ => c.2.length

/-- `table.get(name, 0)` (Arquero `get` defaults to row 0): the first value
of the named column, `undefined` when the table has no rows. -/
def get0 (t : Table) (name : String) : JVal := (t.array name).getD 0 jundef

/-- All columns have the row count's length. -/
def Uniform (t : Table) : Prop := ∀ c ∈ t.cols, c.2.length = t.numRows

end Table

/-- The pair of tables held by the `Monitor` class. -/
structure Monitor where
  meta : Table
  data : Table
deriving DecidableEq, Repr

/-! ## parse.js: `parseData`

`parseData` cleans the measurement table with three `derive` passes, each a
per-cell map over every column but the first, then validates the result.
`deriveCols` models such a pass: Arquero `derive` replaces each named column
(all the names come from `columnNames()`, so none is new), and each
expression reads only the cell of its own column. -/

/-- A `derive` pass whose expressions map each listed column cell-wise. -/
def deriveCols (ids : List String) (f : JVal → JVal) (t : Table) : Table :=
  ⟨t.cols.map (fun c => if ids.contains c.1 then (c.1, c.2.map f) else c)⟩

/-- First pass (`values1`): `d[id] === 'NA' ? null : op.parse_float(d[id])`. -/
def parseStep1 (v : JVal) : JVal :=
  if v = jstr "NA" then jnull else parse_float v

/-- Second pass (`values2`): `d[id] < 0 ? 0 : d[id]`. -/
def parseStep2 (v : JVal) : JVal :=
  if jsLtZero v then jnum 0 else v

/-- Third pass (`values3`): `d[id] != null && !op.is_finite(d[id]) ? null : d[id]`. -/
def parseStep3 (v : JVal) : JVal :=
  if jsNeNull v && !isFiniteNum v then jnull else v

/-- The composite per-cell cleaning map of `parseData`. -/
def parseDataCell (v : JVal) : JVal := parseStep3 (parseStep2 (parseStep1 v))

/-- The three cleaning passes of `parseData` over the table: `ids` is
`dt.columnNames().slice(1)` (every column after the leading `datetime`). -/
def parseDataClean (t : Table) : Table :=
  let ids := t.names.drop 1
  deriveCols ids parseStep3 (deriveCols ids parseStep2 (deriveCols ids parseStep1 t))

/-- Hypothetical variant of the per-cell map with a `<= 0` clamp in the
second pass, written only to witness why the source must use `< 0`: under
`<= 0` the null produced from an `'NA'` sentinel would be zeroed. -/
def parseDataCellLeClamp (v : JVal) : JVal :=
  parseStep3 (if jsLeZero (parseStep1 v) then jnum 0 else parseStep1 v)

/-! ## helpers.js -/

/-- JS `Math.round`: round half toward positive infinity. -/
def jsRound (q : Rat) : Int := (q + mkRat 1 2).floor

/-- Per-cell body of `round1`:
`d => op.is_finite(d[col]) ? op.round(d[col] * 10) / 10 : null`. -/
def round1Cell : JVal → JVal
  | jnum q => jnum (mkRat (jsRound (q * 10)) 10)
  | _ => jnull

/-- `round1` from helpers.js: a `derive` pass over every column whose name is
not `datetime`, applying `round1Cell` to each cell. -/
def round1 (t : Table) : Table :=
  ⟨t.cols.map (fun c => if c.1 == "datetime" then c else (c.1, c.2.map round1Cell))⟩

/-- Browser-safe `assert` from helpers.js: an error exactly on a false
condition. -/
def assertC (cond : Bool) (msg : String) : Except String Unit :=
  if cond then Except.ok () else Except.error msg

/-- First validation loop of `validateDataTable`: every datetime cell must be
a Luxon DateTime, valid, and carry the UTC zone.  The JS messages embed the
row number and the invalid reason; the model keeps the fixed text only. -/
def checkDatetimes : List JVal → Except String Unit
  | [] => Except.ok ()
  | v :: rest =>
    match v with
    | jdate d =>
      if !d.valid then Except.error "datetime is invalid"
      else if d.zoneName != "UTC" then Except.error "datetime is not in UTC"
      else checkDatetimes rest
    | _ => Except.error "datetime is not a Luxon DateTime"

/-- Second loop: consecutive datetimes exactly one hour apart.  Luxon
`curr.diff(prev, "hours").hours === 1` holds exactly when the two instants
are 3600000 ms apart.  The fallthrough for a non-DateTime cell is
unreachable inside `validateDataTable`: the first loop has already rejected
such a table. -/
def checkSpacing : List JVal → Except String Unit
  | jdate p :: jdate c :: rest =>
    if c.epochMs - p.epochMs = 3600000 then checkSpacing (jdate c :: rest)
    else Except.error "datetime gap is not 1 hour"
  | _ :: _ :: _ => Except.error "datetime is not a Luxon DateTime"
  | _ => Except.ok ()

/-- One column's pass of the third loop: each cell must be strictly `null`
or a finite number. -/
def checkColCells : List JVal → Except String Unit
  | [] => Except.ok ()
  | v :: rest =>
    if v == jnull || isFiniteNum v then checkColCells rest
    else Except.error "value is not numeric or null"

/-- Third loop of `validateDataTable` over all non-datetime columns. -/
def checkCells : List (String × List JVal) → Except String Unit
  | [] => Except.ok ()
  | c :: rest =>
    if c.1 == "datetime" then checkCells rest
    else
      match checkColCells c.2 with
      | Except.ok _ => checkCells rest
      | Except.error e => Except.error e

/-- `validateDataTable` from helpers.js. -/
def validateDataTable (t : Table) : Except String Unit := do
  assertC (t.names.contains "datetime") "'datetime' column is missing"
  let datetimes := t.array "datetime"
  checkDatetimes datetimes
  checkSpacing datetimes
  checkCells t.cols

/-- `parseData` from parse.js: the three cleaning passes, a final
`validateDataTable`, then the cleaned table. -/
def parseData (t : Table) : Except String Table := do
  let cleaned := parseDataClean t
  validateDataTable cleaned
  Except.ok cleaned

/-- A datetime cell the first validation loop accepts: a Luxon DateTime,
valid, in the UTC zone. -/
def isUTCDateTime : JVal → Bool
  | jdate d => d.valid && (d.zoneName == "UTC")
  | _ => false

/-- Two consecutive datetime cells exactly one hour apart: both DateTimes,
3600000 ms from the first to the second. -/
def oneHourApart (v w : JVal) : Prop :=
  ∃ a b : LDT, v = jdate a ∧ w = jdate b ∧ b.epochMs - a.epochMs = 3600000

/-- A non-datetime cell the third validation loop accepts: strictly `null`
or a finite number. -/
def validCellB (v : JVal) : Bool := v == jnull || isFiniteNum v

/-! ## Generic table operations used by transform.js -/

/-- Index of the first occurrence of a value: JS `Array.indexOf`, and the row
index found by `objects().find(...)`. -/
def firstIdx [DecidableEq α] (x : α) : List α → Option Nat
  | [] => none
  | a :: l => if a = x then some 0 else (firstIdx x l).map (· + 1)

/-- Keep the values whose mask entry is true (a row filter evaluated on one
column). -/
def applyMask : List JVal → List Bool → List JVal
  | v :: vs, b :: bs => if b then v :: applyMask vs bs else applyMask vs bs
  | _, _ => []

/-- `table.filter(pred)` where the predicate reads a single named column, as
every filter in transform.js does (they all test `d.deviceDeploymentID`). -/
def Table.filterOn (t : Table) (name : String) (p : JVal → Bool) : Table :=
  let mask := (t.array name).map p
  ⟨t.cols.map (fun c => (c.1, applyMask c.2 mask))⟩

/-- JS `Array.slice` index normalization: a negative index counts from the
end, and indices clamp to `[0, len]`. -/
def normIdx (i : Int) (len : Nat) : Nat :=
  if i < 0 then ((len : Int) + i).toNat else min i.toNat len

/-- `table.slice(start, stop)`: rows `[start, stop)` of every column, with JS
`Array.slice` index semantics. -/
def Table.sliceJS (t : Table) (start stop : Int) : Table :=
  ⟨t.cols.map (fun c =>
    ((c.1 : String), ((c.2.take (normIdx stop c.2.length)).drop (normIdx start c.2.length))))⟩

/-- The column selected by one name: Arquero throws when the name matches no
column. -/
def findCol (t : Table) (n : String) : Except String (String × List JVal) :=
  match t.cols.find? (fun c => c.1 == n) with
  | some c => Except.ok c
  | none => Except.error ("column " ++ n ++ " does not exist")

/-- `table.select([...])`: the named columns in the given order. -/
def Table.selectCols (t : Table) (ns : List String) : Except String Table := do
  let picked ← ns.mapM (findCol t)
  Except.ok ⟨picked⟩

/-- `a.concat(b)`: the output keeps `a`'s columns; `b`'s rows are matched by
column name, a column absent from `b` filling with `undefined`. -/
def Table.concat (a b : Table) : Table :=
  ⟨a.cols.map (fun c =>
    (c.1, c.2 ++
      (match b.cols.find? (fun d => d.1 == c.1) with
       | some d => d.2
       | none => List.replicate b.numRows jundef)))⟩

/-- Replace every column with the given name by the given values, or append
a new column: one `derive`d or `assign`ed column. -/
def Table.putCol (t : Table) (name : String) (vs : List JVal) : Table :=
  if t.names.contains name then
    ⟨t.cols.map (fun c => if c.1 == name then (c.1, vs) else c)⟩
  else ⟨t.cols ++ [(name, vs)]⟩

/-- `derive` of one column whose expression is a constant (`aq.escape(x)`). -/
def Table.deriveConst (t : Table) (name : String) (v : JVal) : Table :=
  t.putCol name (List.replicate t.numRows v)

/-- `derive` of one column whose expression reads a single source column
cell-wise. -/
def Table.deriveMap (t : Table) (src dst : String) (f : JVal → JVal) : Table :=
  t.putCol dst ((t.array src).map f)

/-- Sort key used by `orderby('datetime')`: date values compare by their
epoch milliseconds (Luxon `valueOf`).  Only DateTimes occur in a datetime
column; any other value is keyed 0. -/
def sortKey : JVal → Int
  | jdate d => d.epochMs
  | _ => 0

/-- `table.orderby(name)`: stable ascending sort of the rows by the named
column, realized as a stable insertion sort of the row indices. -/
def Table.orderby (t : Table) (name : String) : Table :=
  let ks := t.array name
  let perm := (List.range t.numRows).insertionSort
    (fun i j => sortKey (ks.getD i jundef) ≤ sortKey (ks.getD j jundef))
  ⟨t.cols.map (fun c => (c.1, perm.map (fun i => c.2.getD i jundef)))⟩

/-- `a.join_full(b, key)`: full outer join on one shared key column.  The
output has `a`'s columns then `b`'s non-key columns; a row of `a` joins the
first row of `b` with an equal key value; rows unique to one side fill the
other side's cells with `undefined`, a `b`-only row placing its key value in
the shared key column. -/
def Table.join_full (a b : Table) (key : String) : Table :=
  let ka := a.array key
  let kb := b.array key
  let na := a.numRows
  let matchIdx : Nat → Option Nat := fun i => firstIdx (ka.getD i jundef) kb
  let unmatchedB := (List.range kb.length).filter (fun j => !(ka.contains (kb.getD j jundef)))
  let aPart := a.cols.map (fun c =>
    if c.1 == key then (c.1, c.2 ++ unmatchedB.map (fun j => kb.getD j jundef))
    else (c.1, c.2 ++ unmatchedB.map (fun _ => jundef)))
  let bPart := (b.cols.filter (fun c => c.1 != key)).map (fun c =>
    (c.1,
      (List.range na).map (fun i =>
        match matchIdx i with
        | some j => c.2.getD j jundef
        | none => jundef)
      ++ unmatchedB.map (fun j => c.2.getD j jundef)))
  ⟨aPart ++ bPart⟩

/-! ## transform.js -/

/-- JS string conversion, as used in template interpolation and `toString()`
calls; the rendering of numbers is approximated by the rational's own
representation (no claim below depends on message formatting). -/
def jsToStr : JVal → String
  | jnull => "null"
  | jundef => "undefined"
  | jnum q => toString q
  | jnan => "NaN"
  | jinf p => if p then "Infinity" else "-Infinity"
  | jstr s => s
  | jdate _ => "DateTime"

/-- Column name carried by an identifier cell handed to `table.select`:
identifier cells are strings in every well-formed monitor, and a non-string
cell names no column. -/
def cellToName : JVal → Except String String
  | jstr s => Except.ok s
  | v => Except.error ("column " ++ jsToStr v ++ " does not exist")

/-- `Monitor.getIDs()`. -/
def Monitor.getIDs (m : Monitor) : List JVal := m.meta.array "deviceDeploymentID"

/-- The `ids` argument of `select`, before normalization: a single string, an
array of identifiers, or any other value (number, boolean, ...). -/
inductive SelectArg where
  | str (s : String)
  | arr (ids : List String)
  | other
deriving Repr

/-- The row index of `monitor.meta.objects().find(r => r.deviceDeploymentID
=== id)`: an error naming the id when no row matches. -/
def findRowIdx (dd : List JVal) (id : String) : Except String Nat :=
  match firstIdx (jstr id) dd with
  | some i => Except.ok i
  | none => Except.error ("deviceDeploymentID '" ++ id ++ "' not found in metadata")

/-- The metadata rows of `internal_select`: for each id, the first metadata
row with that `deviceDeploymentID`, assembled by `aq.from` into a table with
the metadata's columns. -/
def selectMetaRows (meta : Table) (ids : List String) : Except String Table := do
  let idxs ← ids.mapM (findRowIdx (meta.array "deviceDeploymentID"))
  Except.ok ⟨meta.cols.map (fun c => (c.1, idxs.map (fun i => c.2.getD i jundef)))⟩

/-- `internal_select` from transform.js: normalize a single string to a
one-element array; reject a non-array or empty argument, then duplicates;
reorder the metadata rows to the ids and select the matching data columns. -/
def internal_select (m : Monitor) (arg : SelectArg) : Except String Monitor := do
  let ids ←
    match arg with
    | SelectArg.str s => Except.ok [s]
    | SelectArg.arr l =>
      if l.isEmpty then
        Except.error "ids must be a non-empty string or array of deviceDeploymentIDs"
      else Except.ok l
    | SelectArg.other =>
      Except.error "ids must be a non-empty string or array of deviceDeploymentIDs"
  if ids.dedup.length ≠ ids.length then
    Except.error "Duplicate deviceDeploymentID values are not allowed in select()"
  else do
    let meta ← selectMetaRows m.meta ids
    let data ← m.data.selectCols ("datetime" :: ids)
    Except.ok ⟨meta, round1 data⟩

/-- `internal_filterByValue` from transform.js: the column's type is read
from the value in the metadata's first row; a number column compares against
`parseFloat(value)` (an error when that is NaN), a string column against
`value.toString()`; any other first-row type is unsupported.  The quote
escaping in the source only protects the generated expression text and does
not change the compared string. -/
def internal_filterByValue (m : Monitor) (columnName : String) (value : JVal) :
    Except String Monitor := do
  if !(m.meta.names.contains columnName) then
    Except.error ("Column '" ++ columnName ++ "' not found in metadata")
  else do
    let colType := typeOf (m.meta.get0 columnName)
    let pred : JVal → Bool ←
      if colType = "number" then
        match parse_float value with
        | jnan =>
          Except.error ("Value '" ++ jsToStr value ++ "' could not be parsed as a number")
        | pv => Except.ok (fun v => v == pv)
      else if colType = "string" then
        Except.ok (fun v => v == jstr (jsToStr value))
      else
        Except.error ("Unsupported column type for filtering: " ++ colType)
    let meta := m.meta.filterOn columnName pred
    let idNames ← (meta.array "deviceDeploymentID").mapM cellToName
    let data ← m.data.selectCols ("datetime" :: idNames)
    Except.ok ⟨meta, round1 data⟩

/-- Arquero `op.valid`: the count of cells that are not null, undefined or
NaN. -/
def validCount (vs : List JVal) : Nat :=
  (vs.filter (fun v => !(isNullish v) && v != jnan)).length

/-- `internal_dropEmpty` from transform.js: roll up each series' valid-cell
count (`Object.entries` keeps the ids' order), keep the ids with a positive
count, select those data columns and filter the metadata to them. -/
def internal_dropEmpty (m : Monitor) : Except String Monitor := do
  let data := m.data
  let ids := data.names.filter (fun c => c ≠ "datetime")
  let validIDs := ids.filter (fun id => 0 < validCount (data.array id))
  let filteredData ← data.selectCols ("datetime" :: validIDs)
  let filteredMeta := m.meta.filterOn "deviceDeploymentID"
    (fun v => (validIDs.map jstr).contains v)
  Except.ok ⟨filteredMeta, round1 filteredData⟩

/-- A recognized IANA timezone, modelled by its name and its UTC offset in
minutes as a function of the instant (so zones with daylight-saving
transitions are expressible).  Luxon's invalid-zone rejection concerns the
resolution of an arbitrary string to such a zone and lies outside the
model. -/
structure Zone where
  name : String
  offsetMin : Int → Int

/-- The local wall-clock hour (Luxon `.setZone(tz).hour`) of an instant. -/
def localHourMs (tz : Zone) (ms : Int) : Int :=
  ((ms + tz.offsetMin ms * 60000).fdiv 3600000) % 24

/-- The local hour of a datetime cell (only DateTimes occur in a datetime
column; the guard in `internal_trimDate` has already rejected an empty
axis). -/
def localHourJ (tz : Zone) : JVal → Int
  | jdate d => localHourMs tz d.epochMs
  | _ => 0

/-- `internal_trimDate` from transform.js (the JS `trimEmptyDays` parameter
defaults to true): convert the first and last datetimes to the zone, trim
`24 − hour` leading rows unless the series already starts at local hour 0
and `hour + 1` trailing rows unless it already ends at local hour 23, then
optionally drop one more leading and trailing 24-row block whose non-datetime
cells are all nullish. -/
def internal_trimDate (m : Monitor) (tz : Zone) (trimEmptyDays : Bool) :
    Except String Monitor := do
  let datetime := m.data.array "datetime"
  if datetime.length = 0 then
    Except.error "No datetime values found in monitor.data"
  else do
    let startHour := localHourJ tz (datetime.getD 0 jundef)
    let endHour := localHourJ tz (datetime.getD (datetime.length - 1) jundef)
    let startTrim : Int := if startHour = 0 then 0 else 24 - startHour
    let endTrim : Int := if endHour = 23 then 0 else endHour + 1
    let start0 : Int := startTrim
    let end0 : Int := (datetime.length : Int) - endTrim
    let dataCols := m.data.names.filter (fun n => n ≠ "datetime")
    let firstDay := m.data.sliceJS start0 (start0 + 24)
    let start1 :=
      if trimEmptyDays && dataCols.all (fun col => (firstDay.array col).all isNullish)
      then start0 + 24 else start0
    let lastDay := m.data.sliceJS (end0 - 24) end0
    let end1 :=
      if trimEmptyDays && dataCols.all (fun col => (lastDay.array col).all isNullish)
      then end0 - 24 else end0
    Except.ok ⟨m.meta, round1 (m.data.sliceJS start1 end1)⟩

/-- `internal_combine` from transform.js: ids of `b` already present in `a`
are dropped from `b`; the metadata tables are concatenated; the data tables
are joined full-outer on `datetime` and re-sorted ascending. -/
def internal_combine (ma mb : Monitor) : Except String Monitor := do
  let idsA := ma.meta.array "deviceDeploymentID"
  let idsB := mb.meta.array "deviceDeploymentID"
  let uniqueIDs := idsB.filter (fun v => !(idsA.contains v))
  let metaB := mb.meta.filterOn "deviceDeploymentID" (fun v => uniqueIDs.contains v)
  let uniqueNames ← uniqueIDs.mapM cellToName
  let dataB ← mb.data.selectCols ("datetime" :: uniqueNames)
  let combinedMeta := ma.meta.concat metaB
  let combinedData := (ma.data.join_full dataB "datetime").orderby "datetime"
  Except.ok ⟨combinedMeta, round1 combinedData⟩

/-! ## collapse and getCurrentStatus -/

/-- `arrayMean` from helpers.js: the mean of the finite numeric entries
(`typeof v === 'number' && Number.isFinite(v)` keeps exactly those), null
when there are none. -/
def arrayMean (arr : List JVal) : JVal :=
  let valid := arr.filterMap (fun v => match v with | jnum q => some q | _ => none)
  if valid.length = 0 then jnull
  else jnum (valid.sum * mkRat 1 valid.length)

/-- The aggregate function name `collapse` passes to the pivot (`op[FUN]`,
`op.count()` or `op.quantile`). -/
inductive AggFun where
  | mean | sum | amax | amin | count | quantile
deriving DecidableEq, Repr

/-- The numeric cells an Arquero aggregate reduces (null, undefined and NaN
are ignored; infinite cells never occur in a validated data table, and the
model ignores them as well). -/
def validNums (vs : List JVal) : List Rat :=
  vs.filterMap (fun v => match v with | jnum q => some q | _ => none)

/-- One pivot group's aggregate: `count` counts the group's rows, `quantile`
linearly interpolates at rank `p * (n - 1)` of the sorted valid values, and
the others reduce the valid values (undefined on an empty reduction, as in
Arquero). -/
def aggApply (fn : AggFun) (arg : Rat) (vs : List JVal) : JVal :=
  match fn with
  | AggFun.count => jnum (mkRat (vs.length : Int) 1)
  | AggFun.sum => jnum (validNums vs).sum
  | AggFun.mean =>
    match validNums vs with
    | [] => jundef
    | l => jnum (l.sum * mkRat 1 l.length)
  | AggFun.amax =>
    match validNums vs with
    | [] => jundef
    | q :: l => jnum (l.foldl (fun a b => if a < b then b else a) q)
  | AggFun.amin =>
    match validNums vs with
    | [] => jundef
    | q :: l => jnum (l.foldl (fun a b => if b < a then b else a) q)
  | AggFun.quantile =>
    match (validNums vs).insertionSort (fun a b => a ≤ b) with
    | [] => jundef
    | q :: l =>
      let sorted := q :: l
      let r : Rat := arg * mkRat ((sorted.length - 1 : Nat) : Int) 1
      let lo := r.floor
      let frac := r - mkRat lo 1
      let a := sorted.getD lo.toNat q
      let b := sorted.getD (lo.toNat + 1) a
      jnum (a + (b - a) * frac)

/-- `table.select(aq.not(name))`: drop the named column. -/
def Table.selectNot (t : Table) (name : String) : Table :=
  ⟨t.cols.filter (fun c => c.1 != name)⟩

/-- Keep the first occurrence of each element not already seen. -/
def firstDedupAux [DecidableEq α] (seen : List α) : List α → List α
  | [] => []
  | a :: l => if a ∈ seen then firstDedupAux seen l else a :: firstDedupAux (a :: seen) l

/-- Keep the first occurrence of each element (the order in which a pivot
meets its distinct keys). -/
def firstDedup [DecidableEq α] (l : List α) : List α := firstDedupAux [] l

/-- `table.fold(names)`: wide to long.  Each row becomes one row per folded
column, keeping the non-folded cells and appending a `key`/`value` pair. -/
def Table.fold (t : Table) (folded : List String) : Table :=
  let keep := t.cols.filter (fun c => !(folded.contains c.1))
  let fcols := folded.filterMap (fun n => t.cols.find? (fun c => c.1 == n))
  let idx := List.range t.numRows
  ⟨keep.map (fun c => (c.1, idx.flatMap (fun i => fcols.map (fun _ => c.2.getD i jundef))))
    ++ [("key", idx.flatMap (fun _ => fcols.map (fun c => jstr c.1))),
        ("value", idx.flatMap (fun i => fcols.map (fun c => c.2.getD i jundef)))]⟩

/-- `table.pivot({key}, {value})` with no prior groupby: one output row; the
columns are the distinct key values in order of first appearance, each cell
the aggregate of the `value` cells of the rows sharing that key. -/
def Table.pivotAgg (t : Table) (keyCol valCol : String) (agg : List JVal → JVal) : Table :=
  let keys := t.array keyCol
  let vals := t.array valCol
  ⟨(firstDedup keys).map (fun k =>
    (jsToStr k, [agg (applyMask vals (keys.map (fun x => x == k)))]))⟩

/-- `table.rename({old: nw})`. -/
def Table.renameCol (t : Table) (old nw : String) : Table :=
  ⟨t.cols.map (fun c => if c.1 == old then (nw, c.2) else c)⟩

/-- `op.format_utcdate` renders a datetime as its UTC ISO string.  The
collapse pipeline uses the text only as a grouping key and parses it back,
so the model renders the epoch milliseconds, which is injective and
round-tripped by `fromISOUTC`; a non-date cell renders through `jsToStr`. -/
def format_utcdate : JVal → JVal
  | jdate d => jstr (toString d.epochMs)
  | v => jstr (jsToStr v)

/-- `DateTime.fromISO(key, {zone: 'utc'})` on a key written by
`format_utcdate`: the inverse rendering; unparsable text gives an invalid
DateTime, as in Luxon. -/
def fromISOUTC (s : String) : JVal :=
  match s.toInt? with
  | some n => jdate ⟨n, "UTC", true⟩
  | none => jdate ⟨0, "UTC", false⟩

/-- `internal_collapse` from transform.js: a single synthetic metadata row
derived from the first row (identity fields overwritten, the new
`deviceDeploymentID` being `xxx_` + deviceID), and the data reshaped through
fold / pivot / fold into one series named `deviceID`.  The `derive` object
literal assigns constant expressions, so the sequential `deriveConst` chain
equals the simultaneous assignment. -/
def internal_collapse (m : Monitor) (deviceID : String) (FUN : AggFun) (FUNarg : Rat) :
    Except String Monitor := do
  let meta := m.meta
  let data := m.data
  let longitude := arrayMean (meta.array "longitude")
  let latitude := arrayMean (meta.array "latitude")
  let deviceDeploymentID := "xxx_" ++ deviceID
  let new_meta := (meta.sliceJS 0 1)
    |>.deriveConst "locationID" (jstr "xxx")
    |>.deriveConst "locationName" (jstr deviceID)
    |>.deriveConst "longitude" longitude
    |>.deriveConst "latitude" latitude
    |>.deriveConst "elevation" jnull
    |>.deriveConst "houseNumber" jnull
    |>.deriveConst "street" jnull
    |>.deriveConst "city" jnull
    |>.deriveConst "zip" jnull
    |>.deriveConst "deviceDeploymentID" (jstr deviceDeploymentID)
    |>.deriveConst "deviceType" jnull
    |>.deriveConst "deploymentType" jnull
  let ids ← (meta.array "deviceDeploymentID").mapM cellToName
  let dataWithStamp := (data.deriveMap "datetime" "utcDatestamp" format_utcdate)
    |>.selectNot "datetime"
  let datetimeColumns := dataWithStamp.array "utcDatestamp"
  let pivoted := (dataWithStamp.fold ids)
    |>.pivotAgg "utcDatestamp" "value" (aggApply FUN FUNarg)
  let unfolded := pivoted.fold (datetimeColumns.map jsToStr)
  let withDt := unfolded.deriveMap "key" "datetime"
    (fun v => match v with
      | jstr s => fromISOUTC s
      | _ => jdate ⟨0, "UTC", false⟩)
  let new_data ← (withDt.renameCol "value" deviceID).selectCols ["datetime", deviceID]
  Except.ok ⟨new_meta, round1 new_data⟩

/-- The per-series scan of `getCurrentStatus`: each row of the series maps
to its index when its cell is finite, else to 0, and `op.max` takes the
maximum (none on an empty table, where Arquero yields undefined). -/
def lastValidRow (vs : List JVal) : Option Nat :=
  match vs.enum.map (fun p => if isFiniteNum p.2 then p.1 else 0) with
  | [] => none
  | l => some (l.foldl Nat.max 0)

/-- `internal_getCurrentStatus` from geojson.js: append a
`lastValidDatetime` and a `lastValidPM_25` column to the metadata, one entry
per id, each read at the series' last valid row index. -/
def internal_getCurrentStatus (m : Monitor) : Table :=
  let ids := (m.meta.array "deviceDeploymentID").map jsToStr
  let dtArr := m.data.array "datetime"
  let lastIdxOf : String → Option Nat := fun id => lastValidRow (m.data.array id)
  let lastValidDatetime := ids.map (fun id =>
    match lastIdxOf id with
    | some i => dtArr.getD i jundef
    | none => jundef)
  let lastValidPM25 := ids.map (fun id =>
    match lastIdxOf id with
    | some i => (m.data.array id).getD i jundef
    | none => jundef)
  (m.meta.putCol "lastValidDatetime" lastValidDatetime).putCol "lastValidPM_25" lastValidPM25

instance {ε α : Type} [DecidableEq ε] [DecidableEq α] : DecidableEq (Except ε α) := fun x y =>
  match x, y with
  | Except.error a, Except.error b => decidable_of_iff (a = b) (by simp)
  | Except.error _, Except.ok _ => isFalse (by simp)
  | Except.ok _, Except.error _ => isFalse (by simp)
  | Except.ok a, Except.ok b => decidable_of_iff (a = b) (by simp)

/-- A valid UTC DateTime cell at the given epoch milliseconds — the shape of
every datetime cell in a monitor that passed validation. -/
def mkUTC (n : Int) : JVal := JVal.jdate ⟨n, "UTC", true⟩

/-! ## The binding invariant and concrete instances used in the analysis -/

/-- The binding invariant of the data model: a string is a
`deviceDeploymentID` of the metadata exactly when it is a non-`datetime`
column name of the data table. -/
def bindingInvSet (m : Monitor) : Prop :=
  ∀ s : String,
    jstr s ∈ m.meta.array "deviceDeploymentID" ↔ (s ∈ m.data.names ∧ s ≠ "datetime")

/-- A two-series monitor on a two-hour axis, used to evaluate `collapse`. -/
def collapseMon : Monitor :=
  ⟨⟨[("deviceDeploymentID", [jstr "a", jstr "b"]),
     ("longitude", [jnum 1, jnum 3]),
     ("latitude", [jnum 2, jnum 4])]⟩,
   ⟨[("datetime", [jdate ⟨0, "UTC", true⟩, jdate ⟨3600000, "UTC", true⟩]),
     ("a", [jnum 1, jnum 2]),
     ("b", [jnum 3, jnull])]⟩⟩

/-- America/Los_Angeles around 2025-03-09: UTC−8 (PST) before the
spring-forward instant 2025-03-09T10:00Z (epoch ms 1741514400000), UTC−7
(PDT) after it. -/
def zoneLA : Zone :=
  ⟨"America/Los_Angeles", fun ms => if ms < 1741514400000 then -480 else -420⟩

/-- The failing input of the trimDate analysis: 48 hourly UTC timestamps
starting 2025-03-09T09:00Z (= 01:00 PST, one hour before the spring-forward
transition), one all-valid series. -/
def dstMon : Monitor :=
  ⟨⟨[("deviceDeploymentID", [jstr "s1"]), ("timezone", [jstr "America/Los_Angeles"])]⟩,
   ⟨[("datetime", (List.range 48).map (fun i =>
       jdate ⟨1741510800000 + 3600000 * (i : Int), "UTC", true⟩)),
     ("s1", List.replicate 48 (jnum 1))]⟩⟩

/-- A one-series monitor on the hours 0–1, first argument of the `combine`
analysis. -/
def combineA : Monitor :=
  ⟨⟨[("deviceDeploymentID", [jstr "a"]), ("longitude", [jnum 1])]⟩,
   ⟨[("datetime", [mkUTC 0, mkUTC 3600000]),
     ("a", [jnum 1, jnum 2])]⟩⟩

/-- A one-series monitor on the hours 1–2, second argument of the `combine`
analysis. -/
def combineB : Monitor :=
  ⟨⟨[("deviceDeploymentID", [jstr "b"]), ("longitude", [jnum 2])]⟩,
   ⟨[("datetime", [mkUTC 3600000, mkUTC 7200000]),
     ("b", [jnum 5, jnum 6])]⟩⟩

/-- The metadata table of the C10 witness: the probed column holds `null` in
its first row and a string equal to the filter value in every later row. -/
def fbvMeta : Table :=
  ⟨[("deviceDeploymentID", [jstr "d1", jstr "d2", jstr "d3"]),
    ("locationName", [jnull, jstr "Entiat", jstr "Entiat"])]⟩

/-- A two-series monitor shared by the select witnesses. -/
def selMon : Monitor :=
  ⟨⟨[("deviceDeploymentID", [jstr "a", jstr "b"]), ("locationName", [jstr "A", jstr "B"])]⟩,
   ⟨[("datetime", [jdate ⟨0, "UTC", true⟩]), ("a", [jnum 1]), ("b", [jnum 2])]⟩⟩

section ParseSanity

example : parseStep1 (jstr "NA") = jnull := by decide

example : parseDataCell (jnum (-5)) = jnum 0 := by decide

example : parseDataCell jnull = jnull := by decide

example : parseFloatStr "-5" = jnum (-5) := by decide

example : parseFloatStr "null" = jnan := by decide

example : parseFloatStr "12abc" = jnum 12 := by decide

end ParseSanity

/-! ## Lemmas about the cleaning passes -/

/-- `parseFloatStr` returns `NaN` or a finite number. -/
lemma parseFloatStr_shape (s : String) :
    parseFloatStr s = jnan ∨ ∃ q : Rat, parseFloatStr s = jnum q := by
  unfold parseFloatStr
  dsimp only
  split
  · exact Or.inl rfl
  · exact Or.inr ⟨_, rfl⟩

/-- The first cleaning pass returns null, `NaN`, an infinity or a finite
number — never a string, an object or `undefined`. -/
lemma parseStep1_shape (v : JVal) :
    parseStep1 v = jnull ∨ parseStep1 v = jnan ∨
      (∃ p, parseStep1 v = jinf p) ∨ ∃ q : Rat, parseStep1 v = jnum q := by
  unfold parseStep1
  split
  · exact Or.inl rfl
  · cases v with
    | jstr s =>
      rcases parseFloatStr_shape s with h | ⟨q, h⟩
      · exact Or.inr (Or.inl h)
      · exact Or.inr (Or.inr (Or.inr ⟨q, h⟩))
    | jnum q => exact Or.inr (Or.inr (Or.inr ⟨q, rfl⟩))
    | jinf p => exact Or.inr (Or.inr (Or.inl ⟨p, rfl⟩))
    | jnull => exact Or.inr (Or.inl rfl)
    | jundef => exact Or.inr (Or.inl rfl)
    | jnan => exact Or.inr (Or.inl rfl)
    | jdate d => exact Or.inr (Or.inl rfl)

/-- The composite cleaning map returns null or a finite number. -/
lemma parseDataCell_shape (v : JVal) :
    parseDataCell v = jnull ∨ ∃ q : Rat, parseDataCell v = jnum q := by
  unfold parseDataCell
  rcases parseStep1_shape v with h | h | ⟨p, h⟩ | ⟨q, h⟩ <;> rw [h]
  · exact Or.inl rfl
  · exact Or.inl rfl
  · unfold parseStep2 jsLtZero
    cases p <;> simp [parseStep3, jsNeNull, isNullish, isFiniteNum]
  · unfold parseStep2 jsLtZero
    split
    · exact Or.inr ⟨0, rfl⟩
    · exact Or.inr ⟨q, rfl⟩

/-- The columns of the cleaned table: every column listed after the leading
one is mapped cell-wise through `parseDataCell`; the rest are untouched. -/
lemma parseDataClean_cols (t : Table) :
    (parseDataClean t).cols =
      t.cols.map (fun c =>
        if (t.names.drop 1).contains c.1 then (c.1, c.2.map parseDataCell) else c) := by
  unfold parseDataClean deriveCols
  simp only [List.map_map]
  apply List.map_congr_left
  intro c _
  by_cases hid : c.1 ∈ t.names.tail <;>
    simp [hid, Function.comp, parseDataCell, List.map_map]

/-- C5.  In the cleaning stage of `parseData`, every non-datetime column is
mapped cell-wise by `parseDataCell`; a cell whose first pass parses to a
negative number becomes exactly `0`; a `null` cell and an `'NA'` cell become
`null`, never `0`.  This depends on the strict `< 0` clamp: `null <= 0` is
true in the expression evaluator (`jsLeZero`), and the `<= 0` variant of the
clamp would map an `'NA'` cell to `0`. -/
theorem claim_C5 (t : Table) :
    ((parseDataClean t).cols =
      t.cols.map (fun c =>
        if (t.names.drop 1).contains c.1 then (c.1, c.2.map parseDataCell) else c))
    ∧ (∀ (v : JVal) (q : Rat), parseStep1 v = jnum q → q < 0 → parseDataCell v = jnum 0)
    ∧ parseDataCell jnull = jnull
    ∧ parseDataCell (jstr "NA") = jnull
    ∧ jsLeZero jnull = true
    ∧ jsLtZero jnull = false
    ∧ parseDataCellLeClamp (jstr "NA") = jnum 0 := by
  refine ⟨parseDataClean_cols t, ?_, by decide, by decide, by decide, by decide, by decide⟩
  intro v q h1 hq
  unfold parseDataCell
  rw [h1]
  unfold parseStep2 jsLtZero
  simp only [decide_eq_true_eq, if_pos hq]
  decide

/-- Witness for C5 at the concrete cell `-5`: it parses to a negative number
and cleans to exactly `0`, while `null` and `'NA'` clean to `null`. -/
theorem claim_C5_witness :
    parseDataCell (jnum (-5)) = jnum 0 ∧ parseDataCell (jstr "NA") = jnull := by
  constructor
  · exact (claim_C5 ⟨[]⟩).2.1 (jnum (-5)) (-5) (by decide) (by norm_num)
  · exact (claim_C5 ⟨[]⟩).2.2.2.1

/-- C6.  After the cleaning passes of `parseData`, every cell of every
non-datetime column is null or a finite number; and `parseData` returns
exactly the cleaned table when its final validation passes. -/
theorem claim_C6 (t : Table) (h : t.names.head? = some "datetime") :
    (∀ p ∈ (parseDataClean t).cols, p.1 ≠ "datetime" →
      ∀ v ∈ p.2, v = jnull ∨ ∃ q : Rat, v = jnum q)
    ∧ (∀ t', parseData t = Except.ok t' → t' = parseDataClean t) := by
  constructor
  · intro p hp hpne v hv
    rw [parseDataClean_cols] at hp
    rcases List.mem_map.mp hp with ⟨c, hc, hceq⟩
    by_cases hid : (t.names.drop 1).contains c.1
    · rw [if_pos hid] at hceq
      subst hceq
      rcases List.mem_map.mp hv with ⟨w, _, hw⟩
      rw [← hw]
      exact parseDataCell_shape w
    · -- a column not in the dropped-first list is the leading datetime column
      rw [if_neg hid] at hceq
      subst hceq
      exfalso
      have hmem : c.1 ∈ t.names := List.mem_map.mpr ⟨c, hc, rfl⟩
      have hnames : t.names = "datetime" :: t.names.drop 1 := by
        cases hn : t.names with
        | nil => rw [hn] at h; simp at h
        | cons a l =>
          rw [hn] at h
          simp only [List.head?_cons, Option.some.injEq] at h
          simp [h, hn]
      rw [hnames] at hmem
      rcases List.mem_cons.mp hmem with h1 | h1
      · exact hpne h1
      · exact hid (by simpa using h1)
  · intro t' ht
    simp only [parseData, Bind.bind, Except.bind] at ht
    rcases hv : validateDataTable (parseDataClean t) with e | u <;> rw [hv] at ht
    · exact Except.noConfusion ht
    · injection ht with h
      exact h.symm

/-- Witness for C6 on a concrete two-column table with messy cells. -/
theorem claim_C6_witness :
    (Table.names ⟨[("datetime", []), ("a", [jstr "x", jnan, jnum 2])]⟩).head? =
      some "datetime"
    ∧ ∀ p ∈ (parseDataClean ⟨[("datetime", []), ("a", [jstr "x", jnan, jnum 2])]⟩).cols,
        p.1 ≠ "datetime" → ∀ v ∈ p.2, v = jnull ∨ ∃ q : Rat, v = jnum q := by
  refine ⟨by decide, ?_⟩
  exact (claim_C6 ⟨[("datetime", []), ("a", [jstr "x", jnan, jnum 2])]⟩ (by decide)).1

/-! ## filterByValue: the first-row type probe -/

/-- C10.  `internal_filterByValue` decides the column's type solely from the
value in the metadata's first row: when that value is `null` (JS typeof
`object`), the call fails with the unsupported-column-type error naming that
type, whatever the other rows of the column hold. -/
theorem claim_C10 (m : Monitor) (columnName : String) (value : JVal)
    (hmem : m.meta.names.contains columnName = true)
    (hnull : m.meta.get0 columnName = jnull) :
    internal_filterByValue m columnName value =
      Except.error "Unsupported column type for filtering: object" := by
  unfold internal_filterByValue
  rw [hmem]
  simp [hnull, typeOf, Bind.bind, Except.bind]

/-- Witness for C10 on a concrete metadata table whose probed column starts
with `null` while every other row is the matched string. -/
theorem claim_C10_witness :
    fbvMeta.names.contains "locationName" = true
    ∧ (Table.get0 fbvMeta "locationName") = jnull
    ∧ (fbvMeta.array "locationName").tail.all (fun v => v == jstr "Entiat") = true
    ∧ internal_filterByValue ⟨fbvMeta, ⟨[("datetime", [])]⟩⟩ "locationName" (jstr "Entiat")
        = Except.error "Unsupported column type for filtering: object" := by
  refine ⟨by decide, by decide, by decide, ?_⟩
  exact claim_C10 ⟨fbvMeta, ⟨[("datetime", [])]⟩⟩ "locationName" (jstr "Entiat")
    (by decide) (by decide)

/-! ## Lemmas about select -/

lemma firstIdx_eq_none_iff [DecidableEq α] (x : α) (l : List α) :
    firstIdx x l = none ↔ x ∉ l := by
  induction l with
  | nil => simp [firstIdx]
  | cons a l ih =>
    rw [firstIdx]
    by_cases ha : a = x
    · simp [ha]
    · simp only [if_neg ha, Option.map_eq_none', ih, List.mem_cons]
      constructor
      · intro h hx
        rcases hx with hx | hx
        · exact ha hx.symm
        · exact h hx
      · intro h hx
        exact h (Or.inr hx)

lemma firstIdx_some_of_mem [DecidableEq α] {x : α} {l : List α} (h : x ∈ l) :
    ∃ i, firstIdx x l = some i := by
  rcases hfi : firstIdx x l with _ | i
  · exact absurd h ((firstIdx_eq_none_iff x l).mp hfi)
  · exact ⟨i, rfl⟩

lemma firstIdx_getD [DecidableEq α] {x : α} {l : List α} {i : Nat}
    (h : firstIdx x l = some i) (d : α) : l.getD i d = x := by
  induction l generalizing i with
  | nil => simp [firstIdx] at h
  | cons a l ih =>
    rw [firstIdx] at h
    by_cases ha : a = x
    · rw [if_pos ha] at h
      injection h with h
      subst h
      simpa using ha
    · rw [if_neg ha] at h
      obtain ⟨j, hj, rfl⟩ := Option.map_eq_some'.mp h
      simpa using ih hj

lemma dedup_length_eq_iff (l : List String) : l.dedup.length = l.length ↔ l.Nodup := by
  constructor
  · intro h
    have hs : l.dedup.Sublist l := l.dedup_sublist
    rw [← hs.eq_of_length h]
    exact l.nodup_dedup
  · intro h
    rw [List.dedup_eq_self.mpr h]

lemma mapM_findRowIdx_ok (dd : List JVal) (ids : List String)
    (h : ∀ id ∈ ids, jstr id ∈ dd) :
    ∃ idxs, ids.mapM (findRowIdx dd) = Except.ok idxs
      ∧ idxs.map (fun i => dd.getD i jundef) = ids.map jstr := by
  induction ids with
  | nil => exact ⟨[], rfl, rfl⟩
  | cons id rest ih =>
    obtain ⟨i, hi⟩ := firstIdx_some_of_mem (h id (List.mem_cons_self id rest))
    obtain ⟨idxs, hm, hmap⟩ := ih (fun x hx => h x (List.mem_cons_of_mem _ hx))
    have hm' : List.mapM.loop (findRowIdx dd) rest [] = Except.ok idxs := hm
    refine ⟨i :: idxs, ?_, ?_⟩
    · rw [List.mapM_cons]
      simp [findRowIdx, hi, hm, hm', Bind.bind, Except.bind, pure, Except.pure]
    · simp only [List.map_cons, List.cons.injEq]
      exact ⟨firstIdx_getD hi jundef, hmap⟩

lemma mapM_findRowIdx_err (dd : List JVal) (ids : List String)
    (h : ∃ id ∈ ids, jstr id ∉ dd) :
    ∃ id ∈ ids, jstr id ∉ dd ∧
      ids.mapM (findRowIdx dd) =
        (Except.error ("deviceDeploymentID '" ++ id ++ "' not found in metadata") :
          Except String (List Nat)) := by
  induction ids with
  | nil => simp at h
  | cons id rest ih =>
    by_cases h1 : jstr id ∈ dd
    · have hrest : ∃ x ∈ rest, jstr x ∉ dd := by
        obtain ⟨x, hx, hxn⟩ := h
        rcases List.mem_cons.mp hx with rfl | hx'
        · exact absurd h1 hxn
        · exact ⟨x, hx', hxn⟩
      obtain ⟨x, hx, hxn, herr⟩ := ih hrest
      obtain ⟨i, hi⟩ := firstIdx_some_of_mem h1
      have herr' : List.mapM.loop (findRowIdx dd) rest [] =
          Except.error ("deviceDeploymentID '" ++ x ++ "' not found in metadata") := herr
      refine ⟨x, List.mem_cons_of_mem _ hx, hxn, ?_⟩
      rw [List.mapM_cons]
      simp [findRowIdx, hi, herr, herr', Bind.bind, Except.bind]
    · have hi : firstIdx (jstr id) dd = none := (firstIdx_eq_none_iff _ _).mpr h1
      refine ⟨id, List.mem_cons_self id rest, h1, ?_⟩
      rw [List.mapM_cons]
      simp [findRowIdx, hi, Bind.bind, Except.bind]

lemma find?_name_eq (t : Table) (n : String) (h : n ∈ t.names) :
    ∃ c, t.cols.find? (fun c => c.1 == n) = some c ∧ c.1 = n := by
  obtain ⟨c, hc, hcn⟩ := List.mem_map.mp h
  have hex : ∃ a ∈ t.cols, (fun c => c.1 == n) a = true := ⟨c, hc, by simp [hcn]⟩
  obtain ⟨c', hc'⟩ := Option.isSome_iff_exists.mp (List.find?_isSome.mpr hex)
  exact ⟨c', hc', by simpa using List.find?_some hc'⟩

lemma array_col (t : Table) (n : String) (h : t.array n ≠ []) :
    ∃ c, t.cols.find? (fun c => c.1 == n) = some c ∧ c.2 = t.array n := by
  unfold Table.array at h ⊢
  rcases hf : t.cols.find? (fun c => c.1 == n) with _ | c
  · rw [hf] at h
    simp at h
  · rw [hf]
    exact ⟨c, rfl, rfl⟩

lemma find?_map_fst (cols : List (String × List JVal))
    (g : String × List JVal → String × List JVal)
    (hg : ∀ c, (g c).1 = c.1) (n : String) :
    (cols.map g).find? (fun c => c.1 == n) =
      (cols.find? (fun c => c.1 == n)).map g := by
  rw [List.find?_map]
  have hpe : ((fun c => c.1 == n) ∘ g) = (fun c : String × List JVal => c.1 == n) := by
    funext c
    simp [Function.comp, hg]
  rw [hpe]

lemma mapM_findCol_ok (t : Table) (ns : List String)
    (h : ∀ n ∈ ns, n ∈ t.names) :
    ns.mapM (findCol t) =
      Except.ok (ns.map (fun n => (t.cols.find? (fun c => c.1 == n)).getD ("", []))) := by
  induction ns with
  | nil => rfl
  | cons n rest ih =>
    obtain ⟨c, hc, hcn⟩ := find?_name_eq t n (h n (List.mem_cons_self _ _))
    rw [List.mapM_cons, ih (fun x hx => h x (List.mem_cons_of_mem _ hx))]
    simp [findCol, hc, Bind.bind, Except.bind, pure, Except.pure]

lemma selectCols_ok (t : Table) (ns : List String)
    (h : ∀ n ∈ ns, n ∈ t.names) :
    ∃ tb, t.selectCols ns = Except.ok tb
      ∧ tb.cols = ns.map (fun n => (t.cols.find? (fun c => c.1 == n)).getD ("", []))
      ∧ tb.names = ns := by
  refine ⟨⟨ns.map (fun n => (t.cols.find? (fun c => c.1 == n)).getD ("", []))⟩, ?_, rfl, ?_⟩
  · unfold Table.selectCols
    rw [mapM_findCol_ok t ns h]
    rfl
  · show (ns.map _).map Prod.fst = ns
    rw [List.map_map]
    have : ∀ n ∈ ns,
        (Prod.fst ∘ fun n => (t.cols.find? (fun c => c.1 == n)).getD ("", [])) n = id n := by
      intro n hn
      obtain ⟨c, hc, hcn⟩ := find?_name_eq t n (h n hn)
      simp [Function.comp, hc, hcn]
    rw [List.map_congr_left this, List.map_id]

lemma round1_names (t : Table) : (round1 t).names = t.names := by
  unfold round1 Table.names
  rw [List.map_map]
  apply List.map_congr_left
  intro c _
  by_cases h : c.1 == "datetime" <;> simp [h, Function.comp]

/-- C7.  For a non-empty, duplicate-free id list whose ids are all present in
the metadata (and, per the binding invariant, in the data columns),
`internal_select` succeeds, and the returned identifier list equals `ids`
exactly, the data columns being reordered to `datetime :: ids`. -/
theorem claim_C7 (m : Monitor) (ids : List String)
    (hne : ids ≠ []) (hnd : ids.Nodup)
    (hmeta : ∀ id ∈ ids, jstr id ∈ m.meta.array "deviceDeploymentID")
    (hdata : ∀ id ∈ ids, id ∈ m.data.names)
    (hdt : "datetime" ∈ m.data.names) :
    ∃ m', internal_select m (SelectArg.arr ids) = Except.ok m'
      ∧ m'.meta.array "deviceDeploymentID" = ids.map jstr
      ∧ m'.data.names = "datetime" :: ids := by
  obtain ⟨id0, hid0⟩ : ∃ id0, id0 ∈ ids := by
    cases ids with
    | nil => exact absurd rfl hne
    | cons a l => exact ⟨a, List.mem_cons_self _ _⟩
  have hddne : m.meta.array "deviceDeploymentID" ≠ [] := by
    intro hnil
    have := hmeta id0 hid0
    rw [hnil] at this
    simp at this
  obtain ⟨c0, hc0, hc0v⟩ := array_col m.meta "deviceDeploymentID" hddne
  obtain ⟨idxs, hm, hmap⟩ :=
    mapM_findRowIdx_ok (m.meta.array "deviceDeploymentID") ids hmeta
  obtain ⟨db, hdb, hdbcols, hdbnames⟩ := selectCols_ok m.data ("datetime" :: ids)
    (by
      intro n hn
      rcases List.mem_cons.mp hn with rfl | hn'
      · exact hdt
      · exact hdata n hn')
  have hmetaOk : selectMetaRows m.meta ids =
      Except.ok ⟨m.meta.cols.map
        (fun c => (c.1, idxs.map (fun i => c.2.getD i jundef)))⟩ := by
    unfold selectMetaRows
    rw [hm]
    rfl
  have hnotEmpty : ids.isEmpty = false := by
    cases ids with
    | nil => exact absurd rfl hne
    | cons a l => rfl
  have hdlen : ¬ ids.dedup.length ≠ ids.length :=
    not_not_intro ((dedup_length_eq_iff ids).mpr hnd)
  refine ⟨⟨⟨m.meta.cols.map (fun c => (c.1, idxs.map (fun i => c.2.getD i jundef)))⟩,
    round1 db⟩, ?_, ?_, ?_⟩
  · unfold internal_select
    dsimp only
    rw [hnotEmpty]
    simp only [Bool.false_eq_true, if_false, Bind.bind, Except.bind, if_neg hdlen,
      hmetaOk, hdb]
  · show Table.array _ "deviceDeploymentID" = ids.map jstr
    unfold Table.array
    rw [find?_map_fst _ _ (by intro c; rfl) _, hc0]
    simp only [Option.map_some']
    rw [hc0v]
    exact hmap
  · show (round1 db).names = _
    rw [round1_names, hdbnames]

/-- C8.  `internal_select` normalizes a single string to a one-element list;
it rejects empty input, an input with duplicate identifiers, and an input
with an identifier absent from the metadata, and the latter error names the
(first) offending identifier. -/
theorem claim_C8 :
    (∀ (m : Monitor) (s : String),
      internal_select m (SelectArg.str s) = internal_select m (SelectArg.arr [s]))
    ∧ (∀ m : Monitor,
      internal_select m (SelectArg.arr []) =
        Except.error "ids must be a non-empty string or array of deviceDeploymentIDs")
    ∧ (∀ (m : Monitor) (ids : List String), ¬ ids.Nodup →
      internal_select m (SelectArg.arr ids) =
        Except.error "Duplicate deviceDeploymentID values are not allowed in select()")
    ∧ (∀ (m : Monitor) (ids : List String), ids.Nodup →
      (∃ id ∈ ids, jstr id ∉ m.meta.array "deviceDeploymentID") →
      ∃ id ∈ ids, jstr id ∉ m.meta.array "deviceDeploymentID" ∧
        internal_select m (SelectArg.arr ids) =
          Except.error ("deviceDeploymentID '" ++ id ++ "' not found in metadata")) := by
  refine ⟨?_, ?_, ?_, ?_⟩
  · intro m s
    unfold internal_select
    rfl
  · intro m
    unfold internal_select
    rfl
  · intro m ids hnd
    have hne : ids ≠ [] := fun h => hnd (h ▸ List.nodup_nil)
    have hnotEmpty : ids.isEmpty = false := by
      cases ids with
      | nil => exact absurd rfl hne
      | cons a l => rfl
    have hdlen : ids.dedup.length ≠ ids.length :=
      fun h => hnd ((dedup_length_eq_iff ids).mp h)
    unfold internal_select
    dsimp only
    rw [hnotEmpty]
    simp only [Bool.false_eq_true, if_false, Bind.bind, Except.bind, if_pos hdlen]
  · intro m ids hnd habs
    obtain ⟨id, hid, hidn, herr⟩ :=
      mapM_findRowIdx_err (m.meta.array "deviceDeploymentID") ids habs
    have hne : ids ≠ [] := by
      intro h
      rw [h] at hid
      simp at hid
    have hnotEmpty : ids.isEmpty = false := by
      cases ids with
      | nil => exact absurd rfl hne
      | cons a l => rfl
    have hdlen : ¬ ids.dedup.length ≠ ids.length :=
      not_not_intro ((dedup_length_eq_iff ids).mpr hnd)
    refine ⟨id, hid, hidn, ?_⟩
    unfold internal_select
    dsimp only
    rw [hnotEmpty]
    simp only [Bool.false_eq_true, if_false, Bind.bind, Except.bind, if_neg hdlen]
    unfold selectMetaRows
    rw [herr]
    rfl

/-- Witness for C7: selecting `["b", "a"]` from `selMon` reorders both
tables to that exact order. -/
theorem claim_C7_witness :
    ∃ m', internal_select selMon (SelectArg.arr ["b", "a"]) = Except.ok m'
      ∧ m'.meta.array "deviceDeploymentID" = ["b", "a"].map jstr
      ∧ m'.data.names = "datetime" :: ["b", "a"] := by
  exact claim_C7 selMon ["b", "a"] (by decide) (by decide) (by decide) (by decide) (by decide)

/-- Witness for C8 at concrete inputs: a duplicate list and an absent id
each produce the required error. -/
theorem claim_C8_witness :
    internal_select selMon (SelectArg.arr ["a", "a"]) =
      Except.error "Duplicate deviceDeploymentID values are not allowed in select()"
    ∧ ∃ id ∈ ["zzz"], jstr id ∉ selMon.meta.array "deviceDeploymentID" ∧
        internal_select selMon (SelectArg.arr ["zzz"]) =
          Except.error ("deviceDeploymentID '" ++ id ++ "' not found in metadata") := by
  constructor
  · exact claim_C8.2.2.1 selMon ["a", "a"] (by decide)
  · exact claim_C8.2.2.2 selMon ["zzz"] (by decide) (by decide)

/-! ## Lemmas about getCurrentStatus -/

lemma putCol_array_self (t : Table) (name : String) (vs : List JVal) :
    (t.putCol name vs).array name = vs := by
  unfold Table.putCol
  by_cases h : t.names.contains name
  · rw [if_pos h]
    unfold Table.array
    rw [find?_map_fst _ _ (fun c => by split <;> rfl) name]
    obtain ⟨c, hc, hcn⟩ := find?_name_eq t name (by simpa using h)
    rw [hc]
    simp only [Option.map_some']
    have hb : (c.1 == name) = true := by simp [hcn]
    simp [hb]
  · rw [if_neg h]
    unfold Table.array
    rw [List.find?_append]
    have hnone : t.cols.find? (fun c => c.1 == name) = none := by
      rw [List.find?_eq_none]
      intro c hc
      simp only [beq_iff_eq]
      intro hcn
      apply h
      have hm : name ∈ t.names := List.mem_map.mpr ⟨c, hc, hcn⟩
      simpa using hm
    rw [hnone]
    simp

lemma putCol_array_other (t : Table) (name name' : String) (vs : List JVal)
    (hne : name' ≠ name) :
    (t.putCol name vs).array name' = t.array name' := by
  unfold Table.putCol
  by_cases h : t.names.contains name
  · rw [if_pos h]
    unfold Table.array
    rw [find?_map_fst _ _ (fun c => by split <;> rfl) name']
    rcases hf : t.cols.find? (fun c => c.1 == name') with _ | c
    · rw [hf]
      rfl
    · rw [hf]
      simp only [Option.map_some']
      have hcn : c.1 = name' := by simpa using List.find?_some hf
      have hb : (c.1 == name) = false := by simp [hcn, hne]
      simp [hb]
  · rw [if_neg h]
    unfold Table.array
    rw [List.find?_append]
    rcases hf : t.cols.find? (fun c => c.1 == name') with _ | c
    · rw [hf]
      have hb : ((name, vs).1 == name') = false := by simp [Ne.symm hne]
      simp [hb]
    · rw [hf]
      rfl

lemma getD_map_lt {α β : Type} (f : α → β) (l : List α) (k : Nat)
    (hk : k < l.length) (d : β) (d' : α) :
    (l.map f).getD k d = f (l.getD k d') := by
  induction l generalizing k with
  | nil => simp at hk
  | cons a l ih =>
    cases k with
    | zero => rfl
    | succ k' =>
      simp only [List.map_cons, List.getD_cons_succ]
      exact ih k' (by simpa using hk)

/-- C9.  For a series whose column holds `[1, null, 3, null]`,
`getCurrentStatus` reports the last valid value `3` read at row index 2 (the
maximum index holding a finite value), with the timestamp of row index 2 —
not row index 3. -/
theorem claim_C9 (m : Monitor) (id : String) (k : Nat)
    (hk : k < (m.meta.array "deviceDeploymentID").length)
    (hid : (m.meta.array "deviceDeploymentID").getD k jundef = jstr id)
    (hcol : m.data.array id = [jnum 1, jnull, jnum 3, jnull]) :
    ((internal_getCurrentStatus m).array "lastValidPM_25").getD k jundef = jnum 3
    ∧ ((internal_getCurrentStatus m).array "lastValidDatetime").getD k jundef
        = (m.data.array "datetime").getD 2 jundef := by
  unfold internal_getCurrentStatus
  dsimp only
  have hkid : ((m.meta.array "deviceDeploymentID").map jsToStr).getD k "" = id := by
    rw [getD_map_lt _ _ k hk _ jundef, hid]
    rfl
  have hklen : k < ((m.meta.array "deviceDeploymentID").map jsToStr).length := by
    simpa using hk
  constructor
  · rw [putCol_array_self]
    rw [getD_map_lt _ _ k hklen _ ""]
    rw [hkid, hcol]
    rfl
  · rw [putCol_array_other _ _ _ _ (by decide), putCol_array_self]
    rw [getD_map_lt _ _ k hklen _ ""]
    rw [hkid, hcol]
    rfl

/-- Witness for C9 on a concrete one-series monitor with values
`[1, null, 3, null]` over four hourly rows. -/
theorem claim_C9_witness :
    ((internal_getCurrentStatus
        ⟨⟨[("deviceDeploymentID", [jstr "s1"])]⟩,
         ⟨[("datetime",
            [jdate ⟨0, "UTC", true⟩, jdate ⟨3600000, "UTC", true⟩,
             jdate ⟨7200000, "UTC", true⟩, jdate ⟨10800000, "UTC", true⟩]),
           ("s1", [jnum 1, jnull, jnum 3, jnull])]⟩⟩).array
        "lastValidPM_25").getD 0 jundef = jnum 3
    ∧ ((internal_getCurrentStatus
        ⟨⟨[("deviceDeploymentID", [jstr "s1"])]⟩,
         ⟨[("datetime",
            [jdate ⟨0, "UTC", true⟩, jdate ⟨3600000, "UTC", true⟩,
             jdate ⟨7200000, "UTC", true⟩, jdate ⟨10800000, "UTC", true⟩]),
           ("s1", [jnum 1, jnull, jnum 3, jnull])]⟩⟩).array
        "lastValidDatetime").getD 0 jundef = jdate ⟨7200000, "UTC", true⟩ := by
  have h := claim_C9
    ⟨⟨[("deviceDeploymentID", [jstr "s1"])]⟩,
     ⟨[("datetime",
        [jdate ⟨0, "UTC", true⟩, jdate ⟨3600000, "UTC", true⟩,
         jdate ⟨7200000, "UTC", true⟩, jdate ⟨10800000, "UTC", true⟩]),
       ("s1", [jnum 1, jnull, jnum 3, jnull])]⟩⟩
    "s1" 0 (by decide) (by decide) (by decide)
  exact ⟨h.1, h.2.trans (by decide)⟩

/-! ## Lemmas about validateDataTable -/

lemma checkDatetimes_ok_iff (l : List JVal) :
    checkDatetimes l = Except.ok () ↔ ∀ v ∈ l, isUTCDateTime v = true := by
  induction l with
  | nil => simp [checkDatetimes]
  | cons v rest ih =>
    cases v with
    | jdate d =>
      rw [checkDatetimes]
      by_cases hv : d.valid
      · by_cases hz : d.zoneName = "UTC"
        · simp [hv, hz, ih, isUTCDateTime]
        · simp [hv, hz, isUTCDateTime]
      · simp [hv, isUTCDateTime]
    | jnull => simp [checkDatetimes, isUTCDateTime]
    | jundef => simp [checkDatetimes, isUTCDateTime]
    | jnum q => simp [checkDatetimes, isUTCDateTime]
    | jnan => simp [checkDatetimes, isUTCDateTime]
    | jinf p => simp [checkDatetimes, isUTCDateTime]
    | jstr s => simp [checkDatetimes, isUTCDateTime]

lemma oneHourApart_jdate (a b : LDT) :
    oneHourApart (jdate a) (jdate b) ↔ b.epochMs - a.epochMs = 3600000 := by
  simp [oneHourApart]

lemma checkSpacing_ok_iff (l : List JVal) :
    checkSpacing l = Except.ok () ↔ l.Chain' oneHourApart := by
  induction l with
  | nil => simp [checkSpacing]
  | cons v rest ih =>
    cases rest with
    | nil =>
      simp only [List.chain'_singleton, iff_true]
      cases v <;> rfl
    | cons w rest' =>
      rw [List.chain'_cons]
      cases v <;> cases w <;>
        try (solve | simp [checkSpacing, oneHourApart, ih])
      rename_i a b
      by_cases hd : b.epochMs - a.epochMs = 3600000
      · simp [checkSpacing, hd, ih, oneHourApart_jdate]
      · simp [checkSpacing, hd, oneHourApart_jdate]

lemma checkColCells_ok_iff (l : List JVal) :
    checkColCells l = Except.ok () ↔ ∀ v ∈ l, validCellB v = true := by
  induction l with
  | nil => simp [checkColCells]
  | cons v rest ih =>
    rw [checkColCells]
    by_cases hv : (v == jnull || isFiniteNum v) = true
    · rw [if_pos hv, ih]
      constructor
      · intro h w hw
        rcases List.mem_cons.mp hw with rfl | hw'
        · exact hv
        · exact h w hw'
      · intro h w hw
        exact h w (List.mem_cons_of_mem _ hw)
    · rw [if_neg hv]
      constructor
      · intro h
        exact absurd h (by simp)
      · intro h
        exact absurd (h v (List.mem_cons_self _ _)) hv

lemma checkCells_ok_iff (cols : List (String × List JVal)) :
    checkCells cols = Except.ok () ↔
      ∀ c ∈ cols, c.1 ≠ "datetime" → ∀ v ∈ c.2, validCellB v = true := by
  induction cols with
  | nil => simp [checkCells]
  | cons c rest ih =>
    rw [checkCells]
    by_cases hdt : c.1 = "datetime"
    · have hb : (c.1 == "datetime") = true := by simp [hdt]
      simp [hb, ih, hdt]
    · have hb : (c.1 == "datetime") = false := by simp [hdt]
      rw [hb]
      rcases hcc : checkColCells c.2 with e | u
      · simp only [Bool.false_eq_true, if_false]
        constructor
        · intro h
          exact absurd h (by simp)
        · intro h
          have := (checkColCells_ok_iff c.2).mpr (h c (List.mem_cons_self _ _) hdt)
          rw [hcc] at this
          exact absurd this (by simp)
      · cases u
        have hcells := (checkColCells_ok_iff c.2).mp hcc
        simp only [Bool.false_eq_true, if_false, ih]
        constructor
        · intro h c' hc' hdt'
          rcases List.mem_cons.mp hc' with rfl | hc''
          · exact hcells
          · exact h c' hc'' hdt'
        · intro h c' hc' hdt'
          exact h c' (List.mem_cons_of_mem _ hc') hdt'

lemma validateDataTable_ok_iff (t : Table) :
    validateDataTable t = Except.ok () ↔
      (t.names.contains "datetime" = true
       ∧ (∀ v ∈ t.array "datetime", isUTCDateTime v = true)
       ∧ (t.array "datetime").Chain' oneHourApart
       ∧ ∀ c ∈ t.cols, c.1 ≠ "datetime" → ∀ v ∈ c.2, validCellB v = true) := by
  unfold validateDataTable assertC
  by_cases hc : t.names.contains "datetime" = true
  · rw [if_pos hc]
    simp only [Bind.bind, Except.bind, hc, true_and]
    rcases h1 : checkDatetimes (t.array "datetime") with e1 | u1
    · simp only [h1]
      constructor
      · intro h
        exact absurd h (by simp)
      · rintro ⟨h2, -, -⟩
        have := (checkDatetimes_ok_iff _).mpr h2
        rw [h1] at this
        exact absurd this (by simp)
    · cases u1
      rcases h2 : checkSpacing (t.array "datetime") with e2 | u2
      · simp only [h1, h2]
        constructor
        · intro h
          exact absurd h (by simp)
        · rintro ⟨-, h3, -⟩
          have := (checkSpacing_ok_iff _).mpr h3
          rw [h2] at this
          exact absurd this (by simp)
      · cases u2
        simp only [h1, h2]
        rw [checkCells_ok_iff]
        constructor
        · intro h
          exact ⟨(checkDatetimes_ok_iff _).mp h1, (checkSpacing_ok_iff _).mp h2, h⟩
        · rintro ⟨-, -, h4⟩
          exact h4
  · rw [if_neg hc]
    simp only [Bind.bind, Except.bind]
    constructor
    · intro h
      exact absurd h (by simp)
    · rintro ⟨h1, -⟩
      exact absurd h1 hc

/-- C4.  `validateDataTable` raises an error if and only if the `datetime`
column is absent, or some datetime cell is not a valid UTC-zoned Luxon
DateTime, or some pair of consecutive datetimes is not exactly one hour
apart, or some non-datetime cell is neither null nor a finite number; it is
a pure check and returns `ok` otherwise. -/
theorem claim_C4 (t : Table) :
    (∃ e, validateDataTable t = Except.error e) ↔
      (¬ t.names.contains "datetime" = true
       ∨ (∃ v ∈ t.array "datetime", ¬ isUTCDateTime v = true)
       ∨ ¬ (t.array "datetime").Chain' oneHourApart
       ∨ ∃ c ∈ t.cols, c.1 ≠ "datetime" ∧ ∃ v ∈ c.2, ¬ validCellB v = true) := by
  have herr : (∃ e, validateDataTable t = Except.error e)
      ↔ ¬ (validateDataTable t = Except.ok ()) := by
    rcases h : validateDataTable t with e | u
    · simp [h]
    · cases u
      simp [h]
  rw [herr, validateDataTable_ok_iff]
  constructor
  · intro h
    by_cases h1 : t.names.contains "datetime" = true
    · by_cases h2 : ∀ v ∈ t.array "datetime", isUTCDateTime v = true
      · by_cases h3 : (t.array "datetime").Chain' oneHourApart
        · by_cases h4 : ∀ c ∈ t.cols, c.1 ≠ "datetime" → ∀ v ∈ c.2, validCellB v = true
          · exact absurd ⟨h1, h2, h3, h4⟩ h
          · push_neg at h4
            obtain ⟨c, hc, hdt, v, hv, hvb⟩ := h4
            exact Or.inr (Or.inr (Or.inr ⟨c, hc, hdt, v, hv, hvb⟩))
        · exact Or.inr (Or.inr (Or.inl h3))
      · push_neg at h2
        obtain ⟨v, hv, hvb⟩ := h2
        exact Or.inr (Or.inl ⟨v, hv, hvb⟩)
    · exact Or.inl h1
  · rintro (h1 | ⟨v, hv, hvb⟩ | h3 | ⟨c, hc, hdt, v, hv, hvb⟩) ⟨g1, g2, g3, g4⟩
    · exact h1 g1
    · exact hvb (g2 v hv)
    · exact h3 g3
    · exact hvb (g4 c hc hdt v hv)

/-- Witness for C4: a table without a `datetime` column fails validation,
and a one-column hourly UTC table passes. -/
theorem claim_C4_witness :
    (∃ e, validateDataTable ⟨[("a", [jnum 1])]⟩ = Except.error e)
    ∧ ¬ (∃ e, validateDataTable
          ⟨[("datetime", [jdate ⟨0, "UTC", true⟩, jdate ⟨3600000, "UTC", true⟩]),
            ("a", [jnum 1, jnull])]⟩ = Except.error e) := by
  constructor
  · exact (claim_C4 ⟨[("a", [jnum 1])]⟩).mpr (Or.inl (by decide))
  · intro h
    rcases (claim_C4 _).mp h with h1 | ⟨v, hv, hvb⟩ | h3 | ⟨c, hc, hdt, v, hv, hvb⟩
    · exact h1 (by decide)
    · fin_cases hv <;> exact hvb (by decide)
    · apply h3
      refine List.chain'_cons.mpr ⟨?_, List.chain'_singleton _⟩
      exact (oneHourApart_jdate _ _).mpr (by decide)
    · fin_cases hc
      · exact hdt rfl
      · fin_cases hv <;> exact hvb (by decide)

/-! ## The collapse and trimDate evaluations -/

/-- C1.  Evaluating `internal_collapse` on a concrete two-series monitor:
the returned metadata's single `deviceDeploymentID` is `xxx_generatedID`
while the returned data's single non-datetime column is named `generatedID`,
so the collapsed monitor violates the binding invariant the claim states. -/
theorem claim_C1 :
    ((internal_collapse collapseMon "generatedID" AggFun.sum (mkRat 8 10)).map
        (fun m' => (m'.meta.array "deviceDeploymentID", m'.data.names))
      = Except.ok ([jstr "xxx_generatedID"], ["datetime", "generatedID"]))
    ∧ ∀ m', internal_collapse collapseMon "generatedID" AggFun.sum (mkRat 8 10)
          = Except.ok m' → ¬ bindingInvSet m' := by
  have hmap : (internal_collapse collapseMon "generatedID" AggFun.sum (mkRat 8 10)).map
      (fun m' => (m'.meta.array "deviceDeploymentID", m'.data.names))
    = Except.ok ([jstr "xxx_generatedID"], ["datetime", "generatedID"]) := by decide
  refine ⟨hmap, ?_⟩
  intro m' hm' hinv
  rw [hm'] at hmap
  simp only [Except.map, Except.ok.injEq, Prod.ext_iff] at hmap
  obtain ⟨harr, hnames⟩ := hmap
  have hm1 : jstr "xxx_generatedID" ∈ m'.meta.array "deviceDeploymentID" := by
    rw [harr]
    exact List.mem_singleton.mpr rfl
  have hm2 := (hinv "xxx_generatedID").mp hm1
  rw [hnames] at hm2
  revert hm2
  decide

/-- C2.  Evaluating `internal_trimDate` on a 48-hour axis that starts one
hour before the America/Los_Angeles spring-forward transition: the returned
23-row table begins at local hour 1, not local hour 0 (the correct
local-midnight boundary sits one row earlier, at epoch ms 1741590000000,
which this zone maps to hour 0). -/
theorem claim_C2 :
    ((internal_trimDate dstMon zoneLA true).map
        (fun m' => ((m'.data.array "datetime").length,
          localHourJ zoneLA ((m'.data.array "datetime").getD 0 jundef)))
      = Except.ok (23, 1))
    ∧ localHourMs zoneLA 1741590000000 = 0 := by
  constructor
  · decide
  · decide

/-! ## Lemmas about combine -/

lemma mkUTC_injective : Function.Injective mkUTC := by
  intro a b h
  simpa [mkUTC] using h

lemma sortKey_mkUTC (n : Int) : sortKey (mkUTC n) = n := rfl

lemma applyMask_self (l : List JVal) (p : JVal → Bool) :
    applyMask l (l.map p) = l.filter p := by
  induction l with
  | nil => rfl
  | cons a l ih =>
    rw [List.map_cons, List.filter_cons]
    by_cases hp : p a
    · simp [applyMask, hp, ih]
    · simp [applyMask, hp, ih]

lemma applyMask_length_eq (l₁ l₂ : List JVal) (mask : List Bool)
    (h : l₁.length = l₂.length) :
    (applyMask l₁ mask).length = (applyMask l₂ mask).length := by
  induction mask generalizing l₁ l₂ with
  | nil => cases l₁ <;> cases l₂ <;> rfl
  | cons b mask ih =>
    cases l₁ with
    | nil =>
      cases l₂ with
      | nil => rfl
      | cons y l₂ => simp at h
    | cons x l₁ =>
      cases l₂ with
      | nil => simp at h
      | cons y l₂ =>
        simp only [List.length_cons, Nat.succ.injEq] at h
        cases b with
        | false => simpa [applyMask] using ih l₁ l₂ h
        | true => simpa [applyMask] using ih l₁ l₂ h

lemma array_of_find? (t : Table) (n : String) (c : String × List JVal)
    (hf : t.cols.find? (fun c => c.1 == n) = some c) : t.array n = c.2 := by
  unfold Table.array
  rw [hf]

lemma array_of_find?_none (t : Table) (n : String)
    (hf : t.cols.find? (fun c => c.1 == n) = none) : t.array n = [] := by
  unfold Table.array
  rw [hf]

lemma array_map_vals (cols : List (String × List JVal))
    (f : String × List JVal → List JVal) (n : String) :
    (Table.mk (cols.map (fun c => (c.1, f c)))).array n
      = (match cols.find? (fun c => c.1 == n) with
         | some c => f c
         | none => []) := by
  unfold Table.array
  dsimp only
  rw [find?_map_fst cols (fun c => (c.1, f c)) (fun c => rfl) n]
  rcases hf : cols.find? (fun c => c.1 == n) with _ | c <;> rw [hf] <;> rfl

lemma filterOn_array_self (t : Table) (name : String) (p : JVal → Bool) :
    (t.filterOn name p).array name = (t.array name).filter p := by
  unfold Table.filterOn
  dsimp only
  rw [array_map_vals]
  rcases hf : t.cols.find? (fun c => c.1 == name) with _ | c
  · rw [hf, array_of_find?_none t name hf]
    rfl
  · rw [hf, array_of_find? t name c hf]
    exact applyMask_self c.2 p

lemma filterOn_names (t : Table) (name : String) (p : JVal → Bool) :
    (t.filterOn name p).names = t.names := by
  unfold Table.filterOn Table.names
  rw [List.map_map]
  rfl

lemma filterOn_uniform (t : Table) (name : String) (p : JVal → Bool)
    (hU : t.Uniform) : (t.filterOn name p).Uniform := by
  intro c hc
  unfold Table.filterOn at hc ⊢
  dsimp only at hc
  obtain ⟨c0, hc0, hceq⟩ := List.mem_map.mp hc
  subst hceq
  unfold Table.numRows
  dsimp only
  cases hcols : t.cols with
  | nil =>
    rw [hcols] at hc0
    simp at hc0
  | cons d rest =>
    dsimp only [List.map_cons]
    apply applyMask_length_eq
    have h1 : c0.2.length = t.numRows := hU c0 hc0
    have h2 : d.2.length = t.numRows := hU d (by rw [hcols]; exact List.mem_cons_self _ _)
    rw [h1, h2]

lemma concat_array (a b : Table) (name : String)
    (hA : name ∈ a.names) (hB : name ∈ b.names) :
    (a.concat b).array name = a.array name ++ b.array name := by
  obtain ⟨ca, hca, hcan⟩ := find?_name_eq a name hA
  obtain ⟨cb, hcb, hcbn⟩ := find?_name_eq b name hB
  unfold Table.concat
  rw [array_map_vals]
  rw [hca]
  dsimp only
  have hfb : b.cols.find? (fun d => d.1 == ca.1) = some cb := by
    rw [hcan]
    exact hcb
  rw [hfb, array_of_find? a name ca hca, array_of_find? b name cb hcb]

lemma concat_numRows (a b : Table) (ha : a.cols ≠ []) (hUb : b.Uniform) :
    (a.concat b).numRows = a.numRows + b.numRows := by
  unfold Table.concat Table.numRows
  cases hcols : a.cols with
  | nil => exact absurd hcols ha
  | cons c0 rest =>
    dsimp only [List.map_cons]
    rw [List.length_append]
    congr 1
    rcases hf : b.cols.find? (fun d => d.1 == c0.1) with _ | cb
    · rw [hf]
      exact List.length_replicate _ _
    · rw [hf]
      exact hUb cb (List.mem_of_find?_eq_some hf)

lemma range_map_getD {α : Type} (d : α) (l : List α) :
    (List.range l.length).map (fun i => l.getD i d) = l := by
  induction l with
  | nil => rfl
  | cons a l ih =>
    rw [List.length_cons, List.range_succ_eq_map, List.map_cons, List.map_map]
    have hcomp : ((fun i => (a :: l).getD i d) ∘ fun n => n + 1)
        = (fun i => l.getD i d) := by
      funext j
      simp [Function.comp]
    rw [hcomp, ih]
    rfl

lemma range_filter_getD {α : Type} (p : α → Bool) (d : α) (l : List α) :
    ((List.range l.length).filter (fun j => p (l.getD j d))).map (fun j => l.getD j d)
      = l.filter p := by
  induction l with
  | nil => rfl
  | cons a l ih =>
    rw [List.length_cons, List.range_succ_eq_map, List.filter_cons]
    have hq0 : (a :: l).getD 0 d = a := rfl
    have hfm : ((List.range l.length).map (fun n => n + 1)).filter
          (fun j => p ((a :: l).getD j d))
        = ((List.range l.length).filter (fun j => p (l.getD j d))).map (fun n => n + 1) := by
      rw [List.filter_map]
      congr 1
    have hmm2 : ∀ (ll : List Nat),
        (ll.map (fun n => n + 1)).map (fun j => (a :: l).getD j d)
          = ll.map (fun j => l.getD j d) := by
      intro ll
      rw [List.map_map]
      rfl
    rw [hq0]
    by_cases hp : p a
    · rw [if_pos hp, List.map_cons, hfm, hmm2, ih]
      have : (a :: l).getD 0 d = a := rfl
      rw [this, List.filter_cons, if_pos hp]
    · rw [if_neg hp, hfm, hmm2, ih, List.filter_cons, if_neg hp]

lemma contains_map_mkUTC (ms : List Int) (n : Int) :
    ((ms.map mkUTC).contains (mkUTC n)) = ms.contains n := by
  cases e1 : (ms.map mkUTC).contains (mkUTC n) <;> cases e2 : ms.contains n <;> try rfl
  · exfalso
    have h2 : n ∈ ms := by simpa using e2
    have h1 : mkUTC n ∈ ms.map mkUTC := List.mem_map.mpr ⟨n, h2, rfl⟩
    have ht : (ms.map mkUTC).contains (mkUTC n) = true := by simpa using h1
    rw [e1] at ht
    exact Bool.noConfusion ht
  · exfalso
    have h1 : mkUTC n ∈ ms.map mkUTC := by simpa using e1
    obtain ⟨x, hx, hxe⟩ := List.mem_map.mp h1
    have h2 : n ∈ ms := mkUTC_injective hxe ▸ hx
    have ht : ms.contains n = true := by simpa using h2
    rw [e2] at ht
    exact Bool.noConfusion ht

lemma mapM_cellToName_ok (l : List JVal) (h : ∀ v ∈ l, ∃ s : String, v = jstr s) :
    ∃ ns : List String, l.mapM cellToName = Except.ok ns ∧ ns.map jstr = l := by
  induction l with
  | nil => exact ⟨[], rfl, rfl⟩
  | cons v rest ih =>
    obtain ⟨s, hs⟩ := h v (List.mem_cons_self _ _)
    obtain ⟨ns, hm, hmap⟩ := ih (fun w hw => h w (List.mem_cons_of_mem _ hw))
    have hm' : List.mapM.loop cellToName rest [] = Except.ok ns := hm
    refine ⟨s :: ns, ?_, by simp [hmap, hs]⟩
    rw [List.mapM_cons]
    simp [hs, cellToName, hm, hm', Bind.bind, Except.bind, pure, Except.pure]

lemma join_full_array_key (a b : Table) (key : String) (hka : key ∈ a.names) :
    (a.join_full b key).array key =
      a.array key ++ (b.array key).filter (fun v => !((a.array key).contains v)) := by
  obtain ⟨ca, hca, hcan⟩ := find?_name_eq a key hka
  have hb : (ca.1 == key) = true := by simp [hcan]
  have hfind : (a.join_full b key).cols.find? (fun c => c.1 == key)
      = some (ca.1, ca.2 ++ ((List.range (b.array key).length).filter
          (fun j => !((a.array key).contains ((b.array key).getD j jundef)))).map
          (fun j => (b.array key).getD j jundef)) := by
    unfold Table.join_full
    dsimp only
    rw [List.find?_append, find?_map_fst a.cols _ (fun c => by split <;> rfl) key, hca]
    simp only [Option.map_some', Option.orElse, Option.or, if_pos hb]
  rw [array_of_find? _ key _ hfind]
  dsimp only
  rw [array_of_find? a key ca hca]
  congr 1
  exact range_filter_getD (fun v => !(ca.2.contains v)) jundef (b.array key)

lemma join_full_numRows (a b : Table) (key : String) (ha : a.cols ≠ []) :
    (a.join_full b key).numRows =
      a.numRows + ((b.array key).filter (fun v => !((a.array key).contains v))).length := by
  have hlen2 : ((List.range (b.array key).length).filter
      (fun j => !((a.array key).contains ((b.array key).getD j jundef)))).length
      = ((b.array key).filter (fun v => !((a.array key).contains v))).length := by
    rw [← range_filter_getD (fun v => !((a.array key).contains v)) jundef (b.array key),
      List.length_map]
  unfold Table.join_full Table.numRows
  dsimp only
  cases hcols : a.cols with
  | nil => exact absurd hcols ha
  | cons c0 rest =>
    dsimp only [List.map_cons, List.cons_append]
    by_cases hb : (c0.1 == key) = true
    · rw [if_pos hb]
      dsimp only
      rw [List.length_append, List.length_map, hlen2]
    · rw [if_neg hb]
      dsimp only
      rw [List.length_append, List.length_map, hlen2]

lemma join_full_names (a b : Table) (key : String) :
    (a.join_full b key).names = a.names ++ (b.selectNot key).names := by
  unfold Table.join_full Table.names Table.selectNot
  dsimp only
  rw [List.map_append]
  congr 1
  · rw [List.map_map]
    refine List.map_congr_left (fun c _ => ?_)
    simp only [Function.comp_apply]
    split <;> rfl
  · rw [List.map_map]
    exact List.map_congr_left (fun c _ => rfl)

lemma orderby_array_key (t : Table) (name : String) (hname : name ∈ t.names) :
    (t.orderby name).array name =
      ((List.range t.numRows).insertionSort
        (fun i j => sortKey ((t.array name).getD i jundef)
          ≤ sortKey ((t.array name).getD j jundef))).map
        (fun i => (t.array name).getD i jundef) := by
  obtain ⟨c, hc, hcn⟩ := find?_name_eq t name hname
  unfold Table.orderby
  dsimp only
  rw [array_map_vals, hc]
  dsimp only
  rw [array_of_find? t name c hc]

lemma round1_array_datetime (t : Table) :
    (round1 t).array "datetime" = t.array "datetime" := by
  unfold round1
  unfold Table.array
  dsimp only
  rw [find?_map_fst t.cols _ (fun c => by split <;> rfl) "datetime"]
  rcases hf : t.cols.find? (fun c => c.1 == "datetime") with _ | c
  · rw [hf]
    rfl
  · rw [hf]
    simp only [Option.map_some']
    have hcn : c.1 = "datetime" := by simpa using List.find?_some hf
    have hb : (c.1 == "datetime") = true := by simp [hcn]
    rw [if_pos hb]

lemma chain'_lt_nodup (l : List Int) (h : l.Chain' (· < ·)) : l.Nodup := by
  have hp : l.Pairwise (· < ·) := List.chain'_iff_pairwise.mp h
  exact hp.imp (fun hab => ne_of_lt hab)

lemma cols_ne_nil_of_mem_names (t : Table) (n : String) (h : n ∈ t.names) :
    t.cols ≠ [] := by
  intro hc
  rw [Table.names, hc] at h
  exact absurd h (List.not_mem_nil n)

lemma array_length_eq_numRows (t : Table) (n : String) (hU : t.Uniform)
    (h : n ∈ t.names) : (t.array n).length = t.numRows := by
  obtain ⟨c, hc, hcn⟩ := find?_name_eq t n h
  rw [array_of_find? t n c hc]
  exact hU c (List.mem_of_find?_eq_some hc)

lemma filterOn_numRows (t : Table) (name : String) (p : JVal → Bool)
    (hU : t.Uniform) (hmem : name ∈ t.names) :
    (t.filterOn name p).numRows = ((t.array name).filter p).length := by
  have hlen : (t.array name).length = t.numRows :=
    array_length_eq_numRows t name hU hmem
  unfold Table.filterOn Table.numRows
  dsimp only
  cases hcols : t.cols with
  | nil => exact absurd hcols (cols_ne_nil_of_mem_names t name hmem)
  | cons c0 rest =>
    dsimp only [List.map_cons]
    have hc0 : c0.2.length = t.numRows := hU c0 (by rw [hcols]; exact List.mem_cons_self _ _)
    rw [applyMask_length_eq c0.2 (t.array name) _ (by rw [hc0, hlen]),
      applyMask_self]

lemma orderby_sorted_perm (t : Table) (name : String) (hname : name ∈ t.names)
    (hnr : t.numRows = (t.array name).length) :
    ((t.orderby name).array name).Perm (t.array name)
      ∧ ((t.orderby name).array name).Pairwise
          (fun u v => sortKey u ≤ sortKey v) := by
  have harr := orderby_array_key t name hname
  rw [hnr] at harr
  haveI hTot : IsTotal Nat (fun i j =>
      sortKey ((t.array name).getD i jundef) ≤ sortKey ((t.array name).getD j jundef)) :=
    ⟨fun i j => le_total _ _⟩
  haveI hTrans : IsTrans Nat (fun i j =>
      sortKey ((t.array name).getD i jundef) ≤ sortKey ((t.array name).getD j jundef)) :=
    ⟨fun a b c hab hbc => le_trans hab hbc⟩
  have hperm0 : ((List.range (t.array name).length).insertionSort (fun i j =>
      sortKey ((t.array name).getD i jundef) ≤ sortKey ((t.array name).getD j jundef))).Perm
      (List.range (t.array name).length) := List.perm_insertionSort _ _
  have hsorted0 : ((List.range (t.array name).length).insertionSort (fun i j =>
      sortKey ((t.array name).getD i jundef) ≤ sortKey ((t.array name).getD j jundef))).Pairwise
      (fun i j =>
        sortKey ((t.array name).getD i jundef) ≤ sortKey ((t.array name).getD j jundef)) :=
    List.sorted_insertionSort _ _
  constructor
  · rw [harr]
    have := hperm0.map (fun i => (t.array name).getD i jundef)
    rw [range_map_getD jundef (t.array name)] at this
    exact this
  · rw [harr]
    exact List.Pairwise.map _ (fun a b hab => hab) hsorted0

lemma contains_filter_of_mem {α : Type} [DecidableEq α] (l : List α)
    (p : α → Bool) (v : α) (hv : v ∈ l) :
    (l.filter p).contains v = p v := by
  cases hp : p v with
  | true =>
    have hm : v ∈ l.filter p := List.mem_filter.mpr ⟨hv, hp⟩
    simpa using hm
  | false =>
    cases hc : (l.filter p).contains v with
    | false => rfl
    | true =>
      exfalso
      have hm : v ∈ l.filter p := by simpa using hc
      have hpv := (List.mem_filter.mp hm).2
      rw [hp] at hpv
      exact Bool.noConfusion hpv

/-- C3.  `internal_combine` succeeds on well-formed inputs; the combined
identifier list is `a`'s identifiers followed by those of `b`'s identifiers
not already present in `a`, so the identifier set is the union of the two
identifier sets and the metadata row count is that union's cardinality; the
combined `datetime` column is a strictly increasing axis whose set of
instants is the union of the two input time axes, hence at least as long as
either input's axis. -/
theorem claim_C3 (ma mb : Monitor) (msA msB : List Int)
    (hddA : "deviceDeploymentID" ∈ ma.meta.names)
    (hddB : "deviceDeploymentID" ∈ mb.meta.names)
    (hUmA : ma.meta.Uniform) (hUmB : mb.meta.Uniform)
    (hNodA : ma.getIDs.Nodup) (hNodB : mb.getIDs.Nodup)
    (hstrB : ∀ v ∈ mb.getIDs, ∃ s : String, v = jstr s)
    (hbindB : ∀ s : String, jstr s ∈ mb.getIDs → s ∈ mb.data.names)
    (hdtA : "datetime" ∈ ma.data.names)
    (hdtB : "datetime" ∈ mb.data.names)
    (hUdA : ma.data.Uniform)
    (hA : ma.data.array "datetime" = msA.map mkUTC)
    (hB : mb.data.array "datetime" = msB.map mkUTC)
    (hsA : msA.Chain' (· < ·))
    (hsB : msB.Chain' (· < ·)) :
    ∃ mc, internal_combine ma mb = Except.ok mc
      ∧ mc.getIDs = ma.getIDs ++ mb.getIDs.filter (fun v => !(ma.getIDs.contains v))
      ∧ mc.getIDs.toFinset = ma.getIDs.toFinset ∪ mb.getIDs.toFinset
      ∧ mc.meta.numRows = (ma.getIDs.toFinset ∪ mb.getIDs.toFinset).card
      ∧ ∃ ms : List Int,
          mc.data.array "datetime" = ms.map mkUTC
            ∧ ms.Chain' (· < ·)
            ∧ ms.toFinset = msA.toFinset ∪ msB.toFinset
            ∧ msA.length ≤ ms.length ∧ msB.length ≤ ms.length := by
  have hNodA2 : (ma.meta.array "deviceDeploymentID").Nodup := hNodA
  have hNodB2 : (mb.meta.array "deviceDeploymentID").Nodup := hNodB
  have hstr2 : ∀ v ∈ (mb.meta.array "deviceDeploymentID").filter
      (fun v => !((ma.meta.array "deviceDeploymentID").contains v)),
      ∃ s : String, v = jstr s :=
    fun v hv => hstrB v (List.mem_of_mem_filter hv)
  obtain ⟨uniqueNames, hmapM, hjstr⟩ := mapM_cellToName_ok
    ((mb.meta.array "deviceDeploymentID").filter
      (fun v => !((ma.meta.array "deviceDeploymentID").contains v))) hstr2
  have hns : ∀ n ∈ "datetime" :: uniqueNames, n ∈ mb.data.names := by
    intro n hn
    rcases List.mem_cons.mp hn with rfl | hn2
    · exact hdtB
    · refine hbindB n ?_
      have hmm : jstr n ∈ uniqueNames.map jstr := List.mem_map.mpr ⟨n, hn2, rfl⟩
      rw [hjstr] at hmm
      exact List.mem_of_mem_filter hmm
  obtain ⟨dataB, hsel, hcolsB, hnamesB⟩ :=
    selectCols_ok mb.data ("datetime" :: uniqueNames) hns
  have hdtDataB : dataB.array "datetime" = mb.data.array "datetime" := by
    obtain ⟨cdt, hcdt, hcdtn⟩ := find?_name_eq mb.data "datetime" hdtB
    have h1 : dataB.cols.find? (fun c => c.1 == "datetime") = some cdt := by
      rw [hcolsB, List.map_cons, hcdt, Option.getD_some]
      exact List.find?_cons_of_pos _ (by simp [hcdtn])
    rw [array_of_find? dataB "datetime" cdt h1, array_of_find? mb.data "datetime" cdt hcdt]
  have hfilter : (mb.meta.array "deviceDeploymentID").filter
      (fun v => ((mb.meta.array "deviceDeploymentID").filter
        (fun v => !((ma.meta.array "deviceDeploymentID").contains v))).contains v)
      = (mb.meta.array "deviceDeploymentID").filter
        (fun v => !((ma.meta.array "deviceDeploymentID").contains v)) :=
    List.filter_congr (fun v hv => contains_filter_of_mem _ _ v hv)
  have hddMetaB : "deviceDeploymentID" ∈
      (mb.meta.filterOn "deviceDeploymentID"
        (fun v => ((mb.meta.array "deviceDeploymentID").filter
          (fun v => !((ma.meta.array "deviceDeploymentID").contains v))).contains v)).names := by
    rw [filterOn_names]
    exact hddB
  have hgetIDs : (ma.meta.concat (mb.meta.filterOn "deviceDeploymentID"
        (fun v => ((mb.meta.array "deviceDeploymentID").filter
          (fun v => !((ma.meta.array "deviceDeploymentID").contains v))).contains v))).array
        "deviceDeploymentID"
      = ma.meta.array "deviceDeploymentID" ++ (mb.meta.array "deviceDeploymentID").filter
          (fun v => !((ma.meta.array "deviceDeploymentID").contains v)) := by
    rw [concat_array _ _ _ hddA hddMetaB, filterOn_array_self, hfilter]
  have hsd : (((mb.meta.array "deviceDeploymentID").filter
        (fun v => !((ma.meta.array "deviceDeploymentID").contains v))).toFinset : Finset JVal)
      = (mb.meta.array "deviceDeploymentID").toFinset
          \ (ma.meta.array "deviceDeploymentID").toFinset := by
    ext x
    simp [List.mem_filter]
  have hnrMeta : (ma.meta.concat (mb.meta.filterOn "deviceDeploymentID"
        (fun v => ((mb.meta.array "deviceDeploymentID").filter
          (fun v => !((ma.meta.array "deviceDeploymentID").contains v))).contains v))).numRows
      = (ma.meta.array "deviceDeploymentID").length
        + ((mb.meta.array "deviceDeploymentID").filter
            (fun v => !((ma.meta.array "deviceDeploymentID").contains v))).length := by
    rw [concat_numRows _ _ (cols_ne_nil_of_mem_names ma.meta _ hddA)
        (filterOn_uniform _ _ _ hUmB),
      filterOn_numRows _ _ _ hUmB hddB, hfilter,
      ← array_length_eq_numRows ma.meta _ hUmA hddA]
  have hKeq : (ma.data.join_full dataB "datetime").array "datetime"
      = (msA ++ msB.filter (fun n => !(msA.contains n))).map mkUTC := by
    rw [join_full_array_key ma.data dataB "datetime" hdtA, hA, hdtDataB, hB,
      List.map_append]
    congr 1
    rw [List.filter_map]
    congr 1
    refine List.filter_congr (fun n _ => ?_)
    simp only [Function.comp_apply, contains_map_mkUTC]
  have hJn : (ma.data.join_full dataB "datetime").numRows
      = ((ma.data.join_full dataB "datetime").array "datetime").length := by
    rw [join_full_numRows ma.data dataB "datetime" (cols_ne_nil_of_mem_names ma.data _ hdtA),
      join_full_array_key ma.data dataB "datetime" hdtA, List.length_append,
      array_length_eq_numRows ma.data "datetime" hUdA hdtA]
  have hdtJ : "datetime" ∈ (ma.data.join_full dataB "datetime").names := by
    rw [join_full_names]
    exact List.mem_append.mpr (Or.inl hdtA)
  obtain ⟨hperm, hpair⟩ :=
    orderby_sorted_perm (ma.data.join_full dataB "datetime") "datetime" hdtJ hJn
  rw [hKeq] at hperm
  have hall : ∀ v ∈ ((ma.data.join_full dataB "datetime").orderby "datetime").array "datetime",
      ∃ n, v = mkUTC n := by
    intro v hv
    obtain ⟨n, _, hn⟩ := List.mem_map.mp (hperm.mem_iff.mp hv)
    exact ⟨n, hn.symm⟩
  have hmsEq : ((((ma.data.join_full dataB "datetime").orderby "datetime").array
        "datetime").map sortKey).map mkUTC
      = ((ma.data.join_full dataB "datetime").orderby "datetime").array "datetime" := by
    rw [List.map_map]
    calc _ = (((ma.data.join_full dataB "datetime").orderby "datetime").array
          "datetime").map id :=
        List.map_congr_left (fun v hv => by obtain ⟨n, rfl⟩ := hall v hv; rfl)
      _ = _ := List.map_id _
  have hmsPerm : ((((ma.data.join_full dataB "datetime").orderby "datetime").array
        "datetime").map sortKey).Perm (msA ++ msB.filter (fun n => !(msA.contains n))) := by
    have h1 := hperm.map sortKey
    rw [List.map_map] at h1
    have h2 : (msA ++ msB.filter (fun n => !(msA.contains n))).map (sortKey ∘ mkUTC)
        = msA ++ msB.filter (fun n => !(msA.contains n)) := by
      calc _ = (msA ++ msB.filter (fun n => !(msA.contains n))).map id :=
          List.map_congr_left (fun n _ => rfl)
        _ = _ := List.map_id _
    rw [h2] at h1
    exact h1
  have hnd0 : (msA ++ msB.filter (fun n => !(msA.contains n))).Nodup := by
    rw [List.nodup_append]
    refine ⟨chain'_lt_nodup msA hsA, List.Nodup.filter _ (chain'_lt_nodup msB hsB), ?_⟩
    intro a haA haF
    have hpv := (List.mem_filter.mp haF).2
    simp at hpv
    exact hpv haA
  have hndms : ((((ma.data.join_full dataB "datetime").orderby "datetime").array
      "datetime").map sortKey).Nodup := hmsPerm.nodup_iff.mpr hnd0
  have hpairms : ((((ma.data.join_full dataB "datetime").orderby "datetime").array
      "datetime").map sortKey).Pairwise (· ≤ ·) :=
    List.Pairwise.map sortKey (fun a b h => h) hpair
  have hchain : ((((ma.data.join_full dataB "datetime").orderby "datetime").array
      "datetime").map sortKey).Chain' (· < ·) :=
    List.Pairwise.chain' ((hpairms.and hndms).imp (fun h => lt_of_le_of_ne h.1 h.2))
  have htfin : ((((ma.data.join_full dataB "datetime").orderby "datetime").array
      "datetime").map sortKey).toFinset = msA.toFinset ∪ msB.toFinset := by
    ext x
    simp only [List.mem_toFinset, Finset.mem_union, hmsPerm.mem_iff, List.mem_append,
      List.mem_filter]
    constructor
    · rintro (h | ⟨h, _⟩)
      · exact Or.inl h
      · exact Or.inr h
    · rintro (h | h)
      · exact Or.inl h
      · by_cases hxa : x ∈ msA
        · exact Or.inl hxa
        · refine Or.inr ⟨h, ?_⟩
          simpa using hxa
  have hlenms : ((((ma.data.join_full dataB "datetime").orderby "datetime").array
      "datetime").map sortKey).length
      = ((((ma.data.join_full dataB "datetime").orderby "datetime").array
        "datetime").map sortKey).toFinset.card :=
    (List.toFinset_card_of_nodup hndms).symm
  have hlA : msA.length ≤ ((((ma.data.join_full dataB "datetime").orderby
      "datetime").array "datetime").map sortKey).length := by
    rw [hlenms, htfin, ← List.toFinset_card_of_nodup (chain'_lt_nodup msA hsA)]
    exact Finset.card_le_card Finset.subset_union_left
  have hlB : msB.length ≤ ((((ma.data.join_full dataB "datetime").orderby
      "datetime").array "datetime").map sortKey).length := by
    rw [hlenms, htfin, ← List.toFinset_card_of_nodup (chain'_lt_nodup msB hsB)]
    exact Finset.card_le_card Finset.subset_union_right
  refine ⟨⟨ma.meta.concat (mb.meta.filterOn "deviceDeploymentID"
      (fun v => ((mb.meta.array "deviceDeploymentID").filter
        (fun v => !((ma.meta.array "deviceDeploymentID").contains v))).contains v)),
    round1 ((ma.data.join_full dataB "datetime").orderby "datetime")⟩, ?_, ?_, ?_, ?_, ?_⟩
  · unfold internal_combine
    dsimp only
    simp only [Bind.bind, Except.bind, hmapM, hsel]
  · exact hgetIDs
  · show ((ma.meta.concat (mb.meta.filterOn "deviceDeploymentID"
        (fun v => ((mb.meta.array "deviceDeploymentID").filter
          (fun v => !((ma.meta.array "deviceDeploymentID").contains v))).contains v))).array
        "deviceDeploymentID").toFinset
      = (ma.meta.array "deviceDeploymentID").toFinset
        ∪ (mb.meta.array "deviceDeploymentID").toFinset
    rw [hgetIDs, List.toFinset_append, hsd, Finset.union_sdiff_self_eq_union]
  · show (ma.meta.concat (mb.meta.filterOn "deviceDeploymentID"
        (fun v => ((mb.meta.array "deviceDeploymentID").filter
          (fun v => !((ma.meta.array "deviceDeploymentID").contains v))).contains v))).numRows
      = ((ma.meta.array "deviceDeploymentID").toFinset
          ∪ (mb.meta.array "deviceDeploymentID").toFinset).card
    rw [hnrMeta, ← Finset.union_sdiff_self_eq_union,
      Finset.card_union_of_disjoint Finset.disjoint_sdiff, ← hsd,
      List.toFinset_card_of_nodup hNodA2,
      List.toFinset_card_of_nodup (List.Nodup.filter _ hNodB2)]
  · refine ⟨(((ma.data.join_full dataB "datetime").orderby "datetime").array
        "datetime").map sortKey, ?_, hchain, htfin, hlA, hlB⟩
    show (round1 ((ma.data.join_full dataB "datetime").orderby "datetime")).array "datetime"
      = _
    rw [round1_array_datetime, hmsEq]

theorem claim_C3_witness :
    ∃ mc, internal_combine combineA combineB = Except.ok mc
      ∧ mc.getIDs = combineA.getIDs
          ++ combineB.getIDs.filter (fun v => !(combineA.getIDs.contains v))
      ∧ mc.getIDs.toFinset = combineA.getIDs.toFinset ∪ combineB.getIDs.toFinset
      ∧ mc.meta.numRows = (combineA.getIDs.toFinset ∪ combineB.getIDs.toFinset).card
      ∧ ∃ ms : List Int,
          mc.data.array "datetime" = ms.map mkUTC
            ∧ ms.Chain' (· < ·)
            ∧ ms.toFinset = ([0, 3600000] : List Int).toFinset
                ∪ ([3600000, 7200000] : List Int).toFinset
            ∧ ([0, 3600000] : List Int).length ≤ ms.length
            ∧ ([3600000, 7200000] : List Int).length ≤ ms.length :=
  claim_C3 combineA combineB [0, 3600000] [3600000, 7200000]
    (by decide) (by decide)
    (by intro c hc; fin_cases hc <;> decide)
    (by intro c hc; fin_cases hc <;> decide)
    (by decide) (by decide)
    (fun v hv => ⟨"b", by
      have h : Monitor.getIDs combineB = [jstr "b"] := by decide
      rw [h] at hv
      simpa using hv⟩)
    (fun s hs => by
      have h : Monitor.getIDs combineB = [jstr "b"] := by decide
      rw [h] at hs
      have hsb : s = "b" := by simpa using hs
      subst hsb
      decide)
    (by decide) (by decide)
    (by intro c hc; fin_cases hc <;> decide)
    (by decide) (by decide)
    (List.chain'_cons.mpr ⟨by decide, List.chain'_singleton _⟩)
    (List.chain'_cons.mpr ⟨by decide, List.chain'_singleton _⟩)

end AirMonitor
